import Mathlib

/-!
Verification development for the mal-dotshix interpreter (rust-dotshix).

The definitions below are a shallow embedding of the final interpreter step of
the repository: the value model and reader AST construction from
`src/reader.rs`, the environment chain from `src/env.rs`, the printer from
`src/printer.rs`, the builtin primitives and special forms from `src/core.rs`,
and the evaluator from `src/step4_if_fn_do.rs`.

Modelling conventions:
- Rust `i64` numbers are modelled as `Int`, with arithmetic reduced into the
  `i64` range: `+ - *` wrap two's-complement (`wrap64`), the semantics of
  Rust's overflowing integer operators in a release build (a debug build
  aborts instead whenever the wrap is nontrivial); `/` is truncated division
  (`Int.tdiv`, matching Rust `/` on `i64`), which aborts — in every build
  profile — at the single in-range case whose quotient overflows,
  `i64::MIN / -1`.  An abort (panic) ends the process rather than being
  caught; it is modelled on the error channel with a distinguishing
  "panic: " prefix, which no interpreter error string carries.
- The shared mutable scope graph (`Rc<RefCell<Bindings>>`) is modelled as a
  store (`List Scope`) indexed by handles (`Nat`); `Env::new(parent)` becomes
  appending a fresh scope whose `parent` field holds the parent handle.
- Rust errors are `String`s, exactly the strings of the source; evaluation
  returns the error together with the store, since in the source mutations
  performed before a failure survive it.
- Evaluation in the source is unboundedly recursive; the embedding adds an
  explicit fuel parameter, decremented at every internal call.  `fuel = 0`
  produces the artificial error "out of fuel", which the source never emits.
- Builtin and special-form function pointers are modelled by the enumerations
  `BuiltinId` and `SpecialId`; Rust compares such pointers by address, which is
  faithfully modelled by equality of these tags.
- `prn`/`println` write to stdout and return `Nil`; the embedding drops the
  output (no claim concerns it) and keeps the returned value.
-/

namespace Mal

/-- Identifiers for the builtin primitives registered by `create_repl_env`
(`src/core.rs`).  Rust stores raw function pointers; distinct builtins have
distinct pointers, so a closed enumeration is a faithful model. -/
inductive BuiltinId where
  | add | sub | mult | divide | listFn | listQ | emptyQ | countFn | eqFn
  | prn | prStrFn | strFn | printlnFn | lt | le | gt | ge
deriving DecidableEq

/-- Identifiers for the special forms registered by `create_repl_env`
(`src/core.rs`). -/
inductive SpecialId where
  | defBang | letStar | doForm | fnStar | ifForm
deriving DecidableEq

mutual
/-- The value model: `MalValue` from `src/reader.rs` (lines 12-29). -/
inductive MalValue where
  | String : String → MalValue
  | Symbol : String → MalValue
  | Number : Int → MalValue
  | Bool : Bool → MalValue
  | Nil : MalValue
  | Round : List MalValue → MalValue
  | Square : List MalValue → MalValue
  | Curly : List MalValue → MalValue
  | Mal : List MalValue → MalValue
  | Comment : String → MalValue
  | NonSpecialSeq : String → MalValue
  | Atom : String → MalValue
  | BuiltinFunction : Function → MalValue
  | EOI : MalValue

/-- The callable model: `Function` from `src/env.rs`, with the `UserDefined`
field set of `src/core.rs` `fn_star` / `src/step4_if_fn_do.rs` `eval`
(`params`, `rest_param`, `body`, captured `env` handle). -/
inductive Function where
  | Builtin : BuiltinId → Function
  | SpecialForm : SpecialId → Function
  | UserDefined : List String → Option String → List MalValue → Nat → Function
end

mutual
/-- Structural equality: `impl PartialEq for MalValue` (`src/reader.rs`
lines 31-55).  Round and square lists compare by contents in all four flavor
combinations; `Mal`, `Comment` and `NonSpecialSeq` never compare equal
(those arms are commented out in the source, so they fall to the default). -/
def malEq : MalValue → MalValue → Bool
  | .String s1, .String s2 => s1 == s2
  | .Symbol s1, .Symbol s2 => s1 == s2
  | .Number n1, .Number n2 => n1 == n2
  | .Bool b1, .Bool b2 => b1 == b2
  | .Nil, .Nil => true
  | .Round v1, .Round v2 => malEqList v1 v2
  | .Square v1, .Square v2 => malEqList v1 v2
  | .Round v1, .Square v2 => malEqList v1 v2
  | .Square v1, .Round v2 => malEqList v1 v2
  | .Curly v1, .Curly v2 => malEqList v1 v2
  | .Atom a1, .Atom a2 => a1 == a2
  | .BuiltinFunction f1, .BuiltinFunction f2 => funEq f1 f2
  | .EOI, .EOI => true
  | _, _ => false
termination_by structural a _b => a

/-- Element-wise equality of value sequences (Rust `Vec<MalValue>` equality). -/
def malEqList : List MalValue → List MalValue → Bool
  | [], [] => true
  | x :: xs, y :: ys => malEq x y && malEqList xs ys
  | _, _ => false
termination_by structural a _b => a

/-- Callable equality: `impl PartialEq for Function` (`src/env.rs` lines
56-76).  Builtins and special forms compare by function pointer; user-defined
closures are matched with `UserDefined { params: p, body: b, .. }`, so only
the fixed parameter list and the body take part in the comparison — the `..`
swallows the captured environment (and the `rest_param` field of the final
step's `Function`). -/
def funEq : Function → Function → Bool
  | .Builtin f1, .Builtin f2 => f1 == f2
  | .SpecialForm f1, .SpecialForm f2 => f1 == f2
  | .UserDefined p1 _ b1 _, .UserDefined p2 _ b2 _ => p1 == p2 && malEqList b1 b2
  | _, _ => false
termination_by structural a _b => a
end

/-- One level of the environment chain: `Bindings` from `src/env.rs`
(lines 78-108) — a name-to-value mapping plus an optional parent handle. -/
structure Scope where
  table : List (String × MalValue)
  parent : Option Nat

/-- The scope graph: all `Bindings` cells ever allocated, addressed by handle
(a model of the `Rc<RefCell<Bindings>>` pointers of the source). -/
abbrev Store := List Scope

/-- `Bindings::set` / `Env::set` (`src/env.rs`): insert or overwrite in the
innermost scope only (consing onto the association list shadows any previous
entry, which is observationally `HashMap::insert`). -/
def setVar (st : Store) (h : Nat) (k : String) (v : MalValue) : Store :=
  match st.get? h with
  | some sc => st.set h ⟨(k, v) :: sc.table, sc.parent⟩
  | none => st

/-- `Env::new(parent)` wrapped in `Rc::new(RefCell::new(...))`: allocate a
fresh empty scope linked to `parent` and return its handle. -/
def allocScope (st : Store) (parent : Option Nat) : Store × Nat :=
  (st ++ [⟨[], parent⟩], st.length)

/-- `Bindings::get` (`src/env.rs` lines 96-107): look in the current level,
else recurse into the parent.  The chain-length fuel replaces the structural
recursion through `Rc` pointers. -/
def bindingsGet : Nat → Store → Nat → String → Option MalValue
  | 0, _, _, _ => none
  | fuel+1, st, h, k =>
    match st.get? h with
    | none => none
    | some sc =>
      match sc.table.lookup k with
      | some v => some v
      | none =>
        match sc.parent with
        | some p => bindingsGet fuel st p k
        | none => none

/-- `Env::get`: chain lookup starting at handle `h`.  A parent chain in any
reachable store is acyclic and shorter than the store, so `st.length + 1`
steps of fuel are always enough. -/
def envGet (st : Store) (h : Nat) (k : String) : Option MalValue :=
  bindingsGet (st.length + 1) st h k

/-- Lookup restricted to a single scope (no parent delegation); used to state
what a given scope itself binds. -/
def lookupLocal (st : Store) (h : Nat) (k : String) : Option MalValue :=
  match st.get? h with
  | some sc => sc.table.lookup k
  | none => none

/-- Decimal digit production for `to_string`: peel digits least-significant
first, prepending, with fuel `n + 1` (each step divides by 10, so this always
suffices). -/
def natCharsAux : Nat → Nat → List Char → List Char
  | 0, _, acc => acc
  | fuel+1, n, acc =>
    if n = 0 then acc else natCharsAux fuel (n / 10) (Char.ofNat (48 + n % 10) :: acc)

/-- Decimal rendering of a natural number, as produced by Rust `to_string`. -/
def natChars (n : Nat) : List Char :=
  if n = 0 then [Char.ofNat 48] else natCharsAux (n + 1) n []

/-- Rust `i64::to_string`: optional minus sign followed by the decimal
digits of the absolute value. -/
def intChars (n : Int) : List Char :=
  if n < 0 then Char.ofNat 45 :: natChars n.natAbs else natChars n.natAbs

/-- Per-character escaping used by `escape_string` (`src/printer.rs` lines
5-18): backslash, double quote, newline, carriage return and tab are escaped,
every other character is kept as is. -/
def escapeChar (c : Char) : List Char :=
  if c.toNat = 92 then [c, c]
  else if c.toNat = 34 then [Char.ofNat 92, c]
  else if c = '\n' then [Char.ofNat 92, 'n']
  else if c = '\r' then [Char.ofNat 92, 'r']
  else if c = '\t' then [Char.ofNat 92, 't']
  else [c]

/-- `escape_string` (`src/printer.rs`), at the character-list level. -/
def escapeList : List Char → List Char
  | [] => []
  | c :: rest => escapeChar c ++ escapeList rest

/-- Space-separated join (Rust `Vec<String>::join(" ")`), at the
character-list level. -/
def joinSpace : List (List Char) → List Char
  | [] => []
  | [x] => x
  | x :: y :: ys => x ++ Char.ofNat 32 :: joinSpace (y :: ys)

mutual
/-- `pr_str` (`src/printer.rs` lines 21-74) at the character-list level:
readable mode quotes and escapes strings; round/square/curly lists print with
their delimiters and space-separated contents; callables print as opaque
placeholder tags; the end-of-input sentinel prints as the empty string. -/
def prChars : MalValue → Bool → List Char
  | .String s, readably =>
    if readably then Char.ofNat 34 :: escapeList s.data ++ [Char.ofNat 34] else s.data
  | .Symbol s, _ => s.data
  | .Number n, _ => intChars n
  | .Bool b, _ => if b then "true".data else "false".data
  | .Nil, _ => "nil".data
  | .Atom a, _ => a.data
  | .Round r, readably => Char.ofNat 40 :: joinSpace (prCharsList r readably) ++ [Char.ofNat 41]
  | .Square r, readably => Char.ofNat 91 :: joinSpace (prCharsList r readably) ++ [Char.ofNat 93]
  | .Curly r, readably => Char.ofNat 123 :: joinSpace (prCharsList r readably) ++ [Char.ofNat 125]
  | .Comment c, _ => c.data
  | .NonSpecialSeq s, _ => s.data
  | .Mal content, readably => joinSpace (prCharsList content readably)
  | .BuiltinFunction f, _ =>
    match f with
    | .Builtin _ => "<#builtin function>".data
    | .SpecialForm _ => "<#special form>".data
    | .UserDefined _ _ _ _ => "<#function>".data
  | .EOI, _ => []
termination_by structural v _r => v

/-- The element-wise rendering used inside `pr_str` for list contents. -/
def prCharsList : List MalValue → Bool → List (List Char)
  | [], _ => []
  | v :: vs, readably => prChars v readably :: prCharsList vs readably
termination_by structural v _r => v
end

/-- `pr_str` with the source signature, as a `String`. -/
def pr_str (v : MalValue) (readably : Bool) : String :=
  String.mk (prChars v readably)

/-- The lower bound of Rust's `i64`, `-2^63`. -/
def I64_MIN : Int := -9223372036854775808

/-- The upper bound of Rust's `i64`, `2^63 - 1`. -/
def I64_MAX : Int := 9223372036854775807

/-- Two's-complement reduction into the `i64` range `[-2^63, 2^63)`: the
value Rust's wrapping `i64` arithmetic produces.  On an in-range argument it
is the identity. -/
def wrap64 (x : Int) : Int :=
  (x + 9223372036854775808) % 18446744073709551616 - 9223372036854775808

/-- Arity error message of `validate_and_extract` (`src/core.rs` line 16). -/
def arithArityMsg (funcName : String) : String :=
  "Expected exactly two arguments for " ++ funcName ++ " function"

/-- `validate_and_extract` (`src/core.rs` lines 14-24): exactly two
arguments, both numbers. -/
def validate_and_extract (args : List MalValue) (funcName : String) :
    Except String (Int × Int) :=
  if args.length ≠ 2 then .error (arithArityMsg funcName)
  else
    match args with
    | [.Number a, .Number b] => .ok (a, b)
    | _ => .error "Expected number arguments"

/-- `add` (`src/core.rs` lines 28-31): the source computes `a + b` on
`i64`, which wraps two's-complement on overflow in a release build (a debug
build aborts), hence the `wrap64` reduction of the sum. -/
def add (args : List MalValue) : Except String MalValue :=
  (validate_and_extract args "add").map fun p => .Number (wrap64 (p.1 + p.2))

/-- `sub` (`src/core.rs` lines 33-36): `a - b` on `i64`, wrapping as in
`add`. -/
def sub (args : List MalValue) : Except String MalValue :=
  (validate_and_extract args "subtract").map fun p => .Number (wrap64 (p.1 - p.2))

/-- `mult` (`src/core.rs` lines 38-41): `a * b` on `i64`, wrapping as in
`add`. -/
def mult (args : List MalValue) : Except String MalValue :=
  (validate_and_extract args "multiply").map fun p => .Number (wrap64 (p.1 * p.2))

/-- `divide` (`src/core.rs` lines 43-50): truncated division (Rust `/` on
`i64`), with a dedicated error when the divisor is 0.  In the one further
in-range case whose quotient overflows `i64` — `i64::MIN / -1` — Rust aborts
with its division-overflow panic in every build profile; the abort is
modelled on the error channel with the "panic: " prefix. -/
def divide (args : List MalValue) : Except String MalValue :=
  match validate_and_extract args "divide" with
  | .error e => .error e
  | .ok (a, b) =>
    if b ≠ 0 then
      if a = I64_MIN ∧ b = -1 then .error "panic: attempt to divide with overflow"
      else .ok (.Number (Int.tdiv a b))
    else .error "Division by 0"

/-- `list` (`src/core.rs` lines 236-238): a round list of all arguments. -/
def listFn (args : List MalValue) : Except String MalValue :=
  .ok (.Round args)

/-- `list_question` (`src/core.rs` lines 240-248). -/
def list_question (args : List MalValue) : Except String MalValue :=
  if args.length ≠ 1 then .error "list? requires at least one argument"
  else
    match args with
    | .Round _ :: _ => .ok (.Bool true)
    | _ => .ok (.Bool false)

/-- `empty_question` (`src/core.rs` lines 250-260). -/
def empty_question (args : List MalValue) : Except String MalValue :=
  if args.length ≠ 1 then .error "empty? requires exactly one argument"
  else
    match args with
    | .Round l :: _ | .Square l :: _ => .ok (.Bool l.isEmpty)
    | .String s :: _ => .ok (.Bool s.isEmpty)
    | _ => .ok (.Bool false)

/-- `count` (`src/core.rs` lines 262-273). -/
def countFn (args : List MalValue) : Except String MalValue :=
  if args.length ≠ 1 then .error "Count requires exactly one argument"
  else
    match args with
    | .Round l :: _ | .Square l :: _ => .ok (.Number l.length)
    | .String s :: _ => .ok (.Number s.length)
    | .Nil :: _ => .ok (.Number 0)
    | _ => .ok .Nil

/-- `equals` (`src/core.rs` lines 275-281): exactly two arguments of any
type, compared with the structural `PartialEq` of `MalValue`. -/
def equals (args : List MalValue) : Except String MalValue :=
  if args.length ≠ 2 then .error "= requires exactly two argument"
  else
    match args with
    | [a, b] => .ok (.Bool (malEq a b))
    | _ => .error "= requires exactly two argument"

/-- `comparison_operator` (`src/core.rs` lines 283-302). -/
def comparison_operator (op : String) (args : List MalValue) :
    Except String MalValue :=
  if args.length ≠ 2 then .error (op ++ " requires exactly two arguments")
  else
    match args with
    | [.Number a, .Number b] =>
      if op = "<" then .ok (.Bool (decide (a < b)))
      else if op = "<=" then .ok (.Bool (decide (a ≤ b)))
      else if op = ">" then .ok (.Bool (decide (a > b)))
      else if op = ">=" then .ok (.Bool (decide (a ≥ b)))
      else .error ("Unsupported operator: " ++ op)
    | _ => .error "Arguments must be numbers"

/-- `prn_fn` (`src/core.rs` lines 304-311): renders the arguments readably to
stdout and returns `Nil`; the output itself is outside the value semantics
and is dropped here. -/
def prn_fn (_args : List MalValue) : Except String MalValue :=
  .ok .Nil

/-- `pr_str_fn` (`src/core.rs` lines 313-319): space-separated readable
rendering, returned as a string. -/
def pr_str_fn (args : List MalValue) : Except String MalValue :=
  .ok (.String (String.intercalate " " (args.map fun v => pr_str v true)))

/-- `str_fn` (`src/core.rs` lines 321-328): unseparated display rendering. -/
def str_fn (args : List MalValue) : Except String MalValue :=
  .ok (.String (String.join (args.map fun v => pr_str v false)))

/-- `println_fn` (`src/core.rs` lines 330-337): display rendering to stdout,
returns `Nil`; the output is dropped here. -/
def println_fn (_args : List MalValue) : Except String MalValue :=
  .ok .Nil

/-- Dispatch from a builtin's function-pointer tag to its implementation
(the registration table of `create_repl_env`, `src/core.rs` lines 362-381). -/
def applyBuiltin (b : BuiltinId) (args : List MalValue) : Except String MalValue :=
  match b with
  | .add => add args
  | .sub => sub args
  | .mult => mult args
  | .divide => divide args
  | .listFn => listFn args
  | .listQ => list_question args
  | .emptyQ => empty_question args
  | .countFn => countFn args
  | .eqFn => equals args
  | .prn => prn_fn args
  | .prStrFn => pr_str_fn args
  | .strFn => str_fn args
  | .printlnFn => println_fn args
  | .lt => comparison_operator "<" args
  | .le => comparison_operator "<=" args
  | .gt => comparison_operator ">" args
  | .ge => comparison_operator ">=" args

/-- Symbol collection for `fn*` parameters (`src/core.rs` lines 151-157 and
163-169): every element must be a symbol. -/
def collectSymbols : List MalValue → Except String (List String)
  | [] => .ok []
  | .Symbol s :: rest => (collectSymbols rest).map fun l => s :: l
  | _ :: _ => .error "fn* Parameters must be Symbols"

/-- The `&`-splitting of a parameter list (`src/core.rs` lines 129-172):
find the position of `&`; it must be followed by exactly one symbol, the
variadic name; the symbols before it are the fixed parameters. -/
def paramSplit (pl : List MalValue) : Except String (List String × Option String) :=
  match pl.findIdx? (fun p => match p with | .Symbol s => s == "&" | _ => false) with
  | some pos =>
    if pos + 1 ≥ pl.length then .error "Expected symbol after &"
    else if pos + 2 ≠ pl.length then .error "Unexpected parameter after rest parameter"
    else
      match pl.get? (pos + 1) with
      | some (.Symbol r) => (collectSymbols (pl.take pos)).map fun fixed => (fixed, some r)
      | _ => .error "Expected symbol after &"
  | none => (collectSymbols pl).map fun fixed => (fixed, none)

/-- `fn_star` (`src/core.rs` lines 112-184): build a closure from a round or
square parameter list and a single body expression, capturing the current
environment handle.  (The `Round(r) if r.is_empty()` arm of the source is
subsumed by the general round/square arm.) -/
def fn_star (args : List MalValue) (env : Nat) : Except String MalValue :=
  if args.length ≠ 2 then .error "fn* requires exactly two arguments"
  else
    match args with
    | [p0, body] =>
      match p0 with
      | .Round pl | .Square pl =>
        match paramSplit pl with
        | .error e => .error e
        | .ok (fixed, restP) => .ok (.BuiltinFunction (.UserDefined fixed restP [body] env))
      | _ =>
        .error "fn* first argument must be a vector that defines the function's parameters"
    | _ => .error "fn* requires exactly two arguments"

/-- Binding of the fixed parameters at closure application
(`src/step4_if_fn_do.rs` lines 113-116): zip parameters with arguments and
set each into the fresh call scope. -/
def bindFixed (params : List String) (vs : List MalValue) (st : Store) (h : Nat) : Store :=
  (params.zip vs).foldl (fun st' p => setVar st' h p.1 p.2) st

/-- Result of evaluation: the `Result<MalValue, String>` of the source paired
with the store, since environment mutations performed before a failure
survive it. -/
abbrev EvalRes := Except String MalValue × Store

/-- Result of evaluating an argument list. -/
abbrev ArgsRes := Except String (List MalValue) × Store

mutual
/-- `eval` (`src/step4_if_fn_do.rs` lines 49-150): symbols resolve through the
environment chain; a non-empty round list is a call — the head is evaluated,
special forms receive the unevaluated tail and the current scope, builtins and
closures receive the evaluated tail; everything else delegates to
`eval_ast`. -/
def eval : Nat → MalValue → Store → Nat → EvalRes
  | 0, _, st, _ => (.error "out of fuel", st)
  | fuel+1, ast, st, env =>
    match ast with
    | .Symbol s =>
      match envGet st env s with
      | some v => (.ok v, st)
      | none => (.error ("Symbol '" ++ s ++ "' not found in environment"), st)
    | .Round lst =>
      match lst with
      | [] => (.ok (.Round []), st)
      | head :: args =>
        match eval fuel head st env with
        | (.error e, st1) => (.error e, st1)
        | (.ok f, st1) =>
          match f with
          | .BuiltinFunction (.SpecialForm sf) =>
            match sf with
            | .defBang => def_bang fuel args st1 env
            | .letStar => let_star fuel args st1 env
            | .doForm => do_func fuel args st1 env
            | .fnStar => (fn_star args env, st1)
            | .ifForm => if_special_form fuel args st1 env
          | .BuiltinFunction (.Builtin b) =>
            match evalArgs fuel args st1 env with
            | (.error e, st2) => (.error e, st2)
            | (.ok vs, st2) => (applyBuiltin b vs, st2)
          | .BuiltinFunction (.UserDefined params restP body fenv) =>
            match evalArgs fuel args st1 env with
            | (.error e, st2) => (.error e, st2)
            | (.ok vs, st2) => applyUser fuel params restP body fenv vs st2
          | _ => (.error "First element is not a function", st1)
    | _ => eval_ast fuel ast st env
termination_by structural f _a _s _e => f

/-- `eval_ast` (`src/step4_if_fn_do.rs` lines 25-47): symbols are returned
unchanged (both arms of the source's lookup return the symbol); the four list
flavors evaluate their elements and rebuild the same flavor; every other
value — including the `EOI` sentinel — is returned unchanged. -/
def eval_ast : Nat → MalValue → Store → Nat → EvalRes
  | 0, _, st, _ => (.error "out of fuel", st)
  | fuel+1, ast, st, env =>
    match ast with
    | .Symbol s => (.ok (.Symbol s), st)
    | .Round l =>
      match evalArgs fuel l st env with
      | (.error e, st1) => (.error e, st1)
      | (.ok vs, st1) => (.ok (.Round vs), st1)
    | .Square l =>
      match evalArgs fuel l st env with
      | (.error e, st1) => (.error e, st1)
      | (.ok vs, st1) => (.ok (.Square vs), st1)
    | .Curly l =>
      match evalArgs fuel l st env with
      | (.error e, st1) => (.error e, st1)
      | (.ok vs, st1) => (.ok (.Curly vs), st1)
    | .Mal l =>
      match evalArgs fuel l st env with
      | (.error e, st1) => (.error e, st1)
      | (.ok vs, st1) => (.ok (.Mal vs), st1)
    | _ => (.ok ast, st)
termination_by structural f _a _s _e => f

/-- Left-to-right evaluation of an argument list (the
`list.iter().map(|x| eval(x, env)).collect()` pattern of the source), with
store threading and fail-fast error propagation. -/
def evalArgs : Nat → List MalValue → Store → Nat → ArgsRes
  | 0, _, st, _ => (.error "out of fuel", st)
  | _+1, [], st, _ => (.ok [], st)
  | fuel+1, e :: es, st, env =>
    match eval fuel e st env with
    | (.error msg, st1) => (.error msg, st1)
    | (.ok v, st1) =>
      match evalArgs fuel es st1 env with
      | (.error msg, st2) => (.error msg, st2)
      | (.ok vs, st2) => (.ok (v :: vs), st2)
termination_by structural f _a _s _e => f

/-- `def_bang` (`src/core.rs` lines 52-65): exactly two arguments, the first
a symbol; evaluate the second in the current scope, bind the result in the
current scope and return it. -/
def def_bang : Nat → List MalValue → Store → Nat → EvalRes
  | 0, _, st, _ => (.error "out of fuel", st)
  | fuel+1, args, st, env =>
    match args with
    | [k, vexpr] =>
      match k with
      | .Symbol key =>
        match eval fuel vexpr st env with
        | (.error e, st1) => (.error e, st1)
        | (.ok value, st1) => (.ok value, setVar st1 env key value)
      | _ => (.error "def! first argument must be a symbol", st)
    | _ => (.error "def! requires exactly two arguments", st)
termination_by structural f _a _s _e => f

/-- `do_func` (`src/core.rs` lines 67-75): evaluate every argument in order,
returning the last value (`Nil` for zero arguments). -/
def do_func : Nat → List MalValue → Store → Nat → EvalRes
  | 0, _, st, _ => (.error "out of fuel", st)
  | fuel+1, args, st, env => evalDo fuel args .Nil st env
termination_by structural f _a _s _e => f

/-- The accumulator loop shared by `do_func` and the closure body loop
(`res = eval(expr, env)?` in sequence). -/
def evalDo : Nat → List MalValue → MalValue → Store → Nat → EvalRes
  | 0, _, _, st, _ => (.error "out of fuel", st)
  | _+1, [], acc, st, _ => (.ok acc, st)
  | fuel+1, e :: es, _, st, env =>
    match eval fuel e st env with
    | (.error msg, st1) => (.error msg, st1)
    | (.ok v, st1) => evalDo fuel es v st1 env
termination_by structural f _a _b _s _e => f

/-- `if_special_form` (`src/core.rs` lines 77-110): two or three arguments;
everything except `Nil` and `Bool(false)` is truthy; the untaken branch is
not evaluated; a missing else branch yields `Nil`. -/
def if_special_form : Nat → List MalValue → Store → Nat → EvalRes
  | 0, _, st, _ => (.error "out of fuel", st)
  | fuel+1, args, st, env =>
    if args.length < 2 || args.length > 3 then
      (.error "if requires two or three arguments", st)
    else
      match args with
      | cond :: thenE :: rest =>
        match eval fuel cond st env with
        | (.error e, st1) => (.error e, st1)
        | (.ok cv, st1) =>
          let truthy := match cv with | .Nil => false | .Bool false => false | _ => true
          if truthy then eval fuel thenE st1 env
          else
            match rest with
            | elseE :: _ => eval fuel elseE st1 env
            | [] => (.ok .Nil, st1)
      | _ => (.error "if requires two or three arguments", st)
termination_by structural f _a _s _e => f

/-- `let_star` (`src/core.rs` lines 186-234): exactly two arguments, the
first a round or square list with an even number of elements; allocate one
fresh scope whose parent is the current scope, bind the pairs sequentially
into it, then evaluate the body in it. -/
def let_star : Nat → List MalValue → Store → Nat → EvalRes
  | 0, _, st, _ => (.error "out of fuel", st)
  | fuel+1, args, st, env =>
    match args with
    | [b0, body] =>
      match b0 with
      | .Round bl | .Square bl =>
        if bl.length % 2 ≠ 0 then (.error "Bindings must be pairs", st)
        else
          match letBind fuel bl (st ++ [⟨[], some env⟩]) st.length with
          | (.error e, st2) => (.error e, st2)
          | (.ok _, st2) => eval fuel body st2 st.length
      | _ => (.error "let* first argument must be a list of bindings", st)
    | _ => (.error "let* requires exactly two arguments", st)
termination_by structural f _a _s _e => f

/-- The sequential binding loop of `let_star` (`src/core.rs` lines 213-229):
each pair's key must be a symbol; the value expression is evaluated in the
new scope (so later bindings see earlier ones) and bound there. -/
def letBind : Nat → List MalValue → Store → Nat → Except String Unit × Store
  | 0, _, st, _ => (.error "out of fuel", st)
  | _+1, [], st, _ => (.ok (), st)
  | _+1, [_], st, _ => (.error "Bindings must be pairs", st)
  | fuel+1, k :: vexpr :: rest, st, env =>
    match k with
    | .Symbol key =>
      match eval fuel vexpr st env with
      | (.error e, st1) => (.error e, st1)
      | (.ok v, st1) => letBind fuel rest (setVar st1 env key v) env
    | _ => (.error "Bindings must start with a symbol", st)
termination_by structural f _a _s _e => f

/-- Closure application (`src/step4_if_fn_do.rs` lines 90-142): with `F`
fixed parameters and `A` arguments, `A < F` is an arity error; a fresh scope
is allocated whose parent is the closure's captured environment; fixed
parameters are bound positionally; with a variadic parameter the remaining
`A - F` arguments are bound to it as a round list, without one `A > F` is an
arity error; the body expressions are evaluated in order in the new scope. -/
def applyUser : Nat → List String → Option String → List MalValue → Nat →
    List MalValue → Store → EvalRes
  | 0, _, _, _, _, _, st => (.error "out of fuel", st)
  | fuel+1, params, rest_param, body, fenv, args, st =>
    if args.length < params.length then
      (.error ("Expected at least " ++ toString params.length ++
        " arguments but got " ++ toString args.length), st)
    else
      let st1 := bindFixed params args (st ++ [⟨[], some fenv⟩]) st.length
      match rest_param with
      | some rname =>
        evalDo fuel body .Nil
          (setVar st1 st.length rname (.Round (args.drop params.length))) st.length
      | none =>
        if args.length > params.length then
          (.error ("Expected " ++ toString params.length ++ " arguments but got " ++
            toString args.length), st1)
        else evalDo fuel body .Nil st1 st.length
termination_by structural f _a _b _c _d _g _s => f
end

/-- The builtin registration table of `create_repl_env` (`src/core.rs` lines
362-381), in registration order. -/
def builtinTable : List (String × BuiltinId) :=
  [("+", .add), ("-", .sub), ("*", .mult), ("/", .divide),
   ("list", .listFn), ("list?", .listQ), ("empty?", .emptyQ), ("count", .countFn),
   ("=", .eqFn), ("prn", .prn), ("pr-str", .prStrFn), ("str", .strFn),
   ("println", .printlnFn), ("<", .lt), ("<=", .le), (">", .gt), (">=", .ge)]

/-- The special-form registration table of `create_repl_env` (`src/core.rs`
lines 383-391), in registration order. -/
def specialFormTable : List (String × SpecialId) :=
  [("def!", .defBang), ("let*", .letStar), ("do", .doForm),
   ("fn*", .fnStar), ("if", .ifForm)]

/-- `create_repl_env` (`src/core.rs` lines 341-410): a root scope (handle 0,
no parent) holding every builtin and special form; nothing else — in
particular no binding named `quote` — is registered. -/
def create_repl_env : Store :=
  let st : Store := [⟨[], none⟩]
  let st := builtinTable.foldl
    (fun s p => setVar s 0 p.1 (.BuiltinFunction (.Builtin p.2))) st
  specialFormTable.foldl
    (fun s p => setVar s 0 p.1 (.BuiltinFunction (.SpecialForm p.2))) st

/-!
The reader.  `parse_input` (`src/reader.rs`) drives a pest parser whose
grammar file `mal.pest` is not part of the sources under scrutiny; only the
AST construction `build_ast` (quote expansion, string unescaping, token
classification into nil/booleans/numbers/symbols, the `EOI` sentinel) is.
The tokenization below is therefore modelled from the spec (§6: a
grammar-driven reader producing a sequence of `Value` nodes) with the usual
mal lexical conventions, while everything `build_ast` decides is taken from
the source.  Character classes are stated on code points: 32/9/10/13/44 are
whitespace (space, tab, newline, carriage return, comma); 40/41 round
brackets, 91/93 square brackets, 123/125 curly brackets, 34 the double
quote, 59 semicolon, 39 quote, 96 backquote, 126 tilde, 64 at, 94 caret —
the non-token characters. -/

/-- Modelled from the spec: reader whitespace (the grammar file `mal.pest`
is missing from src/). -/
def isWs (c : Char) : Bool :=
  c.toNat = 32 || c.toNat = 9 || c.toNat = 10 || c.toNat = 13 || c.toNat = 44

/-- Modelled from the spec: the characters that terminate a token (the
grammar file `mal.pest` is missing from src/). -/
def specialCode (n : Nat) : Bool :=
  n = 40 || n = 41 || n = 91 || n = 93 || n = 123 || n = 125 ||
  n = 34 || n = 59 || n = 39 || n = 96 || n = 126 || n = 64 || n = 94

/-- Modelled from the spec: a character that may appear in a symbol or
number token. -/
def symbolChar (c : Char) : Bool :=
  !(isWs c || specialCode c.toNat)

/-- Modelled from the spec: skip leading whitespace. -/
def skipWs : List Char → List Char
  | [] => []
  | c :: rest => if isWs c then skipWs rest else c :: rest

/-- Modelled from the spec: scan the raw (still escaped) content of a string
literal up to the closing unescaped double quote; a backslash always
consumes the following character.  This is the pest `STRING` token whose
inner content `build_ast` then unescapes. -/
def scanString : List Char → Option (List Char × List Char)
  | [] => none
  | c :: rest =>
    if c.toNat = 34 then some ([], rest)
    else if c.toNat = 92 then
      match rest with
      | [] => none
      | d :: rest' => (scanString rest').map fun p => (c :: d :: p.1, p.2)
    else (scanString rest).map fun p => (c :: p.1, p.2)

/-- `unescape_string` (`src/reader.rs` lines 243-271) at the character-list
level: `\n`, `\r`, `\t`, `\\`, `\"` decode to their characters; an unknown
escape keeps both characters; a trailing backslash is kept. -/
def unescapeList : List Char → List Char
  | [] => []
  | c :: rest =>
    if c.toNat = 92 then
      match rest with
      | [] => [c]
      | d :: rest' =>
        if d = 'n' then '\n' :: unescapeList rest'
        else if d = 'r' then '\r' :: unescapeList rest'
        else if d = 't' then '\t' :: unescapeList rest'
        else if d.toNat = 92 then d :: unescapeList rest'
        else if d.toNat = 34 then d :: unescapeList rest'
        else c :: d :: unescapeList rest'
    else c :: unescapeList rest

/-- Decimal value of a digit token, most-significant digit first. -/
def parseNatL (t : List Char) : Nat :=
  t.foldl (fun a c => a * 10 + (c.toNat - 48)) 0

/-- Digit code predicate (codes 48-57). -/
def isDigitCode (n : Nat) : Bool :=
  48 ≤ n && n ≤ 57

/-- Modelled from the spec: a token is a number literal when it is one or
more digits, optionally preceded by a minus sign (code 45). -/
def isNumTok : List Char → Bool
  | [] => false
  | c :: rest =>
    if c.toNat = 45 then !rest.isEmpty && rest.all (fun d => isDigitCode d.toNat)
    else (c :: rest).all (fun d => isDigitCode d.toNat)

/-- Signed value of a number token. -/
def numVal (t : List Char) : Int :=
  match t with
  | c :: _ => if c.toNat = 45 then -(parseNatL t.tail : Int) else (parseNatL t : Int)
  | [] => 0

/-- Token classification as performed by the grammar rules consumed by
`build_ast` (`src/reader.rs` lines 108-124, 212-215): `nil`, the booleans
and number literals are their own rules; everything else is a symbol. -/
def tokClassify (t : List Char) : MalValue :=
  if t = "nil".data then .Nil
  else if t = "true".data then .Bool true
  else if t = "false".data then .Bool false
  else if isNumTok t then .Number (numVal t)
  else .Symbol (String.mk t)

mutual
/-- Modelled from the spec: one form of the reader, combined with the AST
construction of `build_ast` (`src/reader.rs` lines 94-241): delimited lists
become `Round`/`Square`/`Curly`, string literals are unescaped, `'x`
expands to `(quote x)` (lines 148-153), and bare tokens are classified.
The fuel is decremented at every recursive call. -/
def readForm : Nat → List Char → Option (MalValue × List Char)
  | 0, _ => none
  | fuel+1, cs =>
    match cs with
    | [] => none
    | c :: rest =>
      if c.toNat = 40 then (readSeq fuel 41 rest).map fun p => (.Round p.1, p.2)
      else if c.toNat = 91 then (readSeq fuel 93 rest).map fun p => (.Square p.1, p.2)
      else if c.toNat = 123 then (readSeq fuel 125 rest).map fun p => (.Curly p.1, p.2)
      else if c.toNat = 34 then
        (scanString rest).map fun p => (.String (String.mk (unescapeList p.1)), p.2)
      else if c.toNat = 39 then
        (readForm fuel (skipWs rest)).map fun p =>
          (.Round [.Symbol "quote", p.1], p.2)
      else if symbolChar c then
        some (tokClassify (c :: rest.takeWhile symbolChar), rest.dropWhile symbolChar)
      else none
termination_by structural f _c => f

/-- Modelled from the spec: the elements of a delimited list up to the
closing delimiter `close` (a code point). -/
def readSeq : Nat → Nat → List Char → Option (List MalValue × List Char)
  | 0, _, _ => none
  | fuel+1, close, cs =>
    match skipWs cs with
    | [] => none
    | c :: rest =>
      if c.toNat = close then some ([], rest)
      else
        match readForm fuel (c :: rest) with
        | none => none
        | some (v, cs') => (readSeq fuel close cs').map fun p => (v :: p.1, p.2)
termination_by structural f _c _s => f
end

/-- Modelled from the spec: all top-level forms of an input line. -/
def readForms : Nat → List Char → Option (List MalValue)
  | 0, _ => none
  | fuel+1, cs =>
    match skipWs cs with
    | [] => some []
    | c :: rest =>
      match readForm fuel (c :: rest) with
      | none => none
      | some (v, cs') => (readForms fuel cs').map fun l => v :: l

/-- Modelled from the spec and `build_ast` (`src/reader.rs` lines 232-235):
`parse_input` returns the sequence of parsed top-level forms followed by the
`EOI` sentinel the reader emits at stream end (§3 of the spec).  The fuel
`3 * length + 10` dominates the recursion depth of any successful parse. -/
def parse_input (s : String) : Option (List MalValue) :=
  (readForms (3 * s.data.length + 10) s.data).map fun fs => fs ++ [.EOI]

mutual
/-- The literal-representable values (spec §8 round-trip property): nil,
booleans, numbers, strings, symbols whose text is a plain non-numeric
token, and the three list flavors over these.  `Mal`, `Comment`,
`NonSpecialSeq`, `Atom`, callables and `EOI` have no literal syntax. -/
inductive Literal : MalValue → Prop where
  | nil : Literal .Nil
  | bool (b : Bool) : Literal (.Bool b)
  | num (n : Int) : Literal (.Number n)
  | str (s : String) : Literal (.String s)
  | sym (s : String) :
      s.data ≠ [] → s.data.all symbolChar = true →
      s.data ≠ "nil".data → s.data ≠ "true".data → s.data ≠ "false".data →
      isNumTok s.data = false → Literal (.Symbol s)
  | round {xs : List MalValue} : LiteralList xs → Literal (.Round xs)
  | square {xs : List MalValue} : LiteralList xs → Literal (.Square xs)
  | curly {xs : List MalValue} : LiteralList xs → Literal (.Curly xs)

/-- Lists of literal-representable values. -/
inductive LiteralList : List MalValue → Prop where
  | nil : LiteralList []
  | cons {x : MalValue} {xs : List MalValue} :
      Literal x → LiteralList xs → LiteralList (x :: xs)
end

mutual
/-- Fuel needed by `readForm` on the printed form of a value. -/
def rfBound : MalValue → Nat
  | .Round xs => 1 + seqBound xs
  | .Square xs => 1 + seqBound xs
  | .Curly xs => 1 + seqBound xs
  | _ => 1
termination_by structural v => v

/-- Fuel needed by `readSeq` on the printed elements of a list. -/
def seqBound : List MalValue → Nat
  | [] => 1
  | x :: xs => 1 + rfBound x + seqBound xs
termination_by structural l => l
end

mutual
/-- Absence of the `EOI` sentinel anywhere inside a value (including closure
bodies). -/
def noEOI : MalValue → Bool
  | .EOI => false
  | .Round xs | .Square xs | .Curly xs | .Mal xs => noEOIList xs
  | .BuiltinFunction f => funNoEOI f
  | _ => true
termination_by structural v => v

/-- Absence of `EOI` in a list of values. -/
def noEOIList : List MalValue → Bool
  | [] => true
  | x :: xs => noEOI x && noEOIList xs
termination_by structural l => l

/-- Absence of `EOI` inside a callable (a closure body may hold values). -/
def funNoEOI : Function → Bool
  | .Builtin _ => true
  | .SpecialForm _ => true
  | .UserDefined _ _ body _ => noEOIList body
termination_by structural f => f
end

/-- Absence of `EOI` in every value bound anywhere in the store. -/
def storeNoEOI (st : Store) : Prop :=
  ∀ sc ∈ st, ∀ kv ∈ sc.table, noEOI kv.2 = true

/-- Number test used to state the `validate_and_extract` type check. -/
def isNumV : MalValue → Bool
  | .Number _ => true
  | _ => false

/-- A character stream on which a token just read would have ended: empty,
or starting with a non-token character. -/
def delimB : List Char → Bool
  | [] => true
  | c :: _ => !symbolChar c

/-- The no-`EOI` invariant of the evaluator at a given fuel: every entry
point, fed a sentinel-free input and a sentinel-free store, leaves the store
sentinel-free and can only return sentinel-free values. -/
def NoEOIInv (fuel : Nat) : Prop :=
  (∀ ast st env, noEOI ast = true → storeNoEOI st →
    storeNoEOI (eval fuel ast st env).2 ∧
    (∀ v, (eval fuel ast st env).1 = .ok v → noEOI v = true)) ∧
  (∀ ast st env, noEOI ast = true → storeNoEOI st →
    storeNoEOI (eval_ast fuel ast st env).2 ∧
    (∀ v, (eval_ast fuel ast st env).1 = .ok v → noEOI v = true)) ∧
  (∀ es st env, noEOIList es = true → storeNoEOI st →
    storeNoEOI (evalArgs fuel es st env).2 ∧
    (∀ vs, (evalArgs fuel es st env).1 = .ok vs → noEOIList vs = true)) ∧
  (∀ args st env, noEOIList args = true → storeNoEOI st →
    storeNoEOI (def_bang fuel args st env).2 ∧
    (∀ v, (def_bang fuel args st env).1 = .ok v → noEOI v = true)) ∧
  (∀ args st env, noEOIList args = true → storeNoEOI st →
    storeNoEOI (do_func fuel args st env).2 ∧
    (∀ v, (do_func fuel args st env).1 = .ok v → noEOI v = true)) ∧
  (∀ es acc st env, noEOIList es = true → noEOI acc = true → storeNoEOI st →
    storeNoEOI (evalDo fuel es acc st env).2 ∧
    (∀ v, (evalDo fuel es acc st env).1 = .ok v → noEOI v = true)) ∧
  (∀ args st env, noEOIList args = true → storeNoEOI st →
    storeNoEOI (if_special_form fuel args st env).2 ∧
    (∀ v, (if_special_form fuel args st env).1 = .ok v → noEOI v = true)) ∧
  (∀ args st env, noEOIList args = true → storeNoEOI st →
    storeNoEOI (let_star fuel args st env).2 ∧
    (∀ v, (let_star fuel args st env).1 = .ok v → noEOI v = true)) ∧
  (∀ bl st env, noEOIList bl = true → storeNoEOI st →
    storeNoEOI (letBind fuel bl st env).2) ∧
  (∀ params rp body fenv args st, noEOIList body = true → noEOIList args = true →
    storeNoEOI st →
    storeNoEOI (applyUser fuel params rp body fenv args st).2 ∧
    (∀ v, (applyUser fuel params rp body fenv args st).1 = .ok v → noEOI v = true))

end Mal

open Mal

/-! Helper lemmas about the environment store. -/

/-- Setting a variable never changes the number of scopes. -/
theorem length_setVar (st : Store) (h : Nat) (k : String) (v : MalValue) :
    (setVar st h k v).length = st.length := by
  unfold setVar
  cases st.get? h <;> simp

/-- Binding a parameter list never changes the number of scopes. -/
theorem length_foldl_setVar (l : List (String × MalValue)) (h : Nat) :
    ∀ st : Store, (l.foldl (fun st' p => setVar st' h p.1 p.2) st).length = st.length := by
  induction l with
  | nil => intro st; rfl
  | cons p rest ih => intro st; rw [List.foldl_cons, ih, length_setVar]

/-- `bindFixed` never changes the number of scopes. -/
theorem length_bindFixed (params : List String) (vs : List MalValue) (st : Store) (h : Nat) :
    (bindFixed params vs st h).length = st.length :=
  length_foldl_setVar (params.zip vs) h st

/-- A valid handle resolves to some scope. -/
theorem get?_isSome_of_lt {st : Store} {h : Nat} (hlt : h < st.length) :
    ∃ sc, st.get? h = some sc := by
  cases hsc : st.get? h with
  | none => exact absurd (List.get?_eq_none.mp hsc) (by omega)
  | some sc => exact ⟨sc, rfl⟩

/-- After `set(name, value)` the innermost scope itself resolves `name` to
`value`. -/
theorem lookupLocal_setVar_self {st : Store} {h : Nat} (k : String) (v : MalValue)
    (hlt : h < st.length) :
    lookupLocal (setVar st h k v) h k = some v := by
  obtain ⟨sc, hsc⟩ := get?_isSome_of_lt hlt
  unfold setVar lookupLocal
  rw [hsc]
  simp only [List.get?_set_eq_of_lt _ hlt]
  simp [List.lookup]

/-- After `set(name, value)` a chain lookup starting at the mutated scope
resolves `name` to `value`. -/
theorem envGet_setVar_self {st : Store} {h : Nat} (k : String) (v : MalValue)
    (hlt : h < st.length) :
    envGet (setVar st h k v) h k = some v := by
  obtain ⟨sc, hsc⟩ := get?_isSome_of_lt hlt
  unfold envGet bindingsGet
  rw [length_setVar]
  unfold setVar
  rw [hsc]
  simp only [List.get?_set_eq_of_lt _ hlt]
  simp [List.lookup]

/-- `setVar` changes no scope's parent pointer. -/
theorem parent_setVar (st : Store) (h i : Nat) (k : String) (v : MalValue) :
    ((setVar st h k v).get? i).map Scope.parent = (st.get? i).map Scope.parent := by
  unfold setVar
  cases hsc : st.get? h with
  | none => rfl
  | some sc =>
    by_cases hih : h = i
    · subst hih
      have hlt : h < st.length := by
        by_contra hge
        rw [List.get?_eq_none.mpr (by omega)] at hsc
        exact Option.noConfusion hsc
      rw [List.get?_set_eq_of_lt _ hlt, hsc]
      rfl
    · rw [List.get?_set_ne _ _ hih]

/-- Parameter binding changes no scope's parent pointer. -/
theorem parent_foldl_setVar (l : List (String × MalValue)) (h i : Nat) :
    ∀ st : Store,
      ((l.foldl (fun st' p => setVar st' h p.1 p.2) st).get? i).map Scope.parent =
        (st.get? i).map Scope.parent := by
  induction l with
  | nil => intro st; rfl
  | cons p rest ih => intro st; rw [List.foldl_cons, ih, parent_setVar]

/-! Helper lemmas about `validate_and_extract` (`src/core.rs`), shared by the
claims about the arithmetic primitives. -/

/-- Argument-count check of `validate_and_extract`. -/
theorem vae_arity (args : List MalValue) (name : String) (h : args.length ≠ 2) :
    validate_and_extract args name = .error (arithArityMsg name) := by
  simp [validate_and_extract, h]

/-- Type check of `validate_and_extract`: any non-number among two arguments
is rejected. -/
theorem vae_typeerr (a b : MalValue) (name : String)
    (h : isNumV a = false ∨ isNumV b = false) :
    validate_and_extract [a, b] name = .error "Expected number arguments" := by
  cases a <;> cases b <;> simp_all [validate_and_extract, isNumV]

/-- Two numbers pass `validate_and_extract`. -/
theorem vae_num (a b : Int) (name : String) :
    validate_and_extract [.Number a, .Number b] name = .ok (a, b) := by
  simp [validate_and_extract]

/-- On an in-range `i64` value, two's-complement reduction is the
identity. -/
theorem wrap64_eq_self (x : Int) (h1 : I64_MIN ≤ x) (h2 : x ≤ I64_MAX) :
    wrap64 x = x := by
  simp only [I64_MIN] at h1
  simp only [I64_MAX] at h2
  have hmod : (x + 9223372036854775808) % 18446744073709551616 =
      x + 9223372036854775808 :=
    Int.emod_eq_of_lt (by omega) (by omega)
  simp only [wrap64, hmod]
  omega

/-- C4: the `=` primitive requires exactly 2 arguments of any type and
returns the boolean result of structural equality, which is flavor-agnostic
for round and square lists: element-wise equal contents make a round and a
square list compare equal, and `(= (list 1 2) [1 2])` evaluates to
`Bool(true)`. -/
theorem equals_structural_flavor_agnostic :
    (∀ args : List MalValue, args.length ≠ 2 →
      equals args = .error "= requires exactly two argument") ∧
    (∀ a b : MalValue, equals [a, b] = .ok (.Bool (malEq a b))) ∧
    (∀ xs ys : List MalValue, malEqList xs ys = true →
      malEq (.Round xs) (.Square ys) = true) ∧
    (eval 10 (.Round [.Symbol "=", .Round [.Symbol "list", .Number 1, .Number 2],
      .Square [.Number 1, .Number 2]]) create_repl_env 0).1 = .ok (.Bool true) := by
  refine ⟨?_, ?_, ?_, ?_⟩
  · intro args h
    simp [equals, h]
  · intro a b
    simp [equals]
  · intro xs ys h
    simpa [malEq] using h
  · rfl

/-- Witness for C4 at concrete inputs. -/
theorem equals_structural_flavor_agnostic_witness :
    equals [] = .error "= requires exactly two argument" ∧
    equals [MalValue.Nil, MalValue.Nil] = .ok (.Bool true) ∧
    malEq (.Round [.Number 1, .Number 2]) (.Square [.Number 1, .Number 2]) = true := by
  refine ⟨equals_structural_flavor_agnostic.1 [] (by decide), ?_, ?_⟩
  · rw [equals_structural_flavor_agnostic.2.1 MalValue.Nil MalValue.Nil]
    rfl
  · exact equals_structural_flavor_agnostic.2.2.1 _ _ (by rfl)

/-- C5, counterexample to the original claim: `/` applied to the two
in-range numbers `i64::MIN` and `-1` has a nonzero divisor yet does not
return a `Number` result — the quotient `2^63` is not representable in
`i64`, so the source program aborts with Rust's division-overflow panic
(modelled on the error channel with the "panic: " prefix, which no
interpreter error string carries); the abort also surfaces through the full
evaluator. -/
theorem arith_divide_overflow_counterexample :
    (-1 : Int) ≠ 0 ∧
    divide [.Number I64_MIN, .Number (-1)] =
      .error "panic: attempt to divide with overflow" ∧
    (eval 10 (.Round [.Symbol "/", .Number I64_MIN, .Number (-1)])
      create_repl_env 0).1 = .error "panic: attempt to divide with overflow" := by
  refine ⟨by decide, by rfl, by rfl⟩

/-- C5 (amended): each arithmetic primitive `+ - * /` requires exactly 2
arguments (else the arity error of `validate_and_extract`), both numbers
(else the type error).  `+ - *` return the two's-complement-wrapped `i64`
sum, difference and product — in particular the plain integer sum whenever
it is in the `i64` range (the wrap is the release-build semantics of Rust's
overflowing operators; a debug build aborts when the wrap is nontrivial).
`/` fails with the divide-by-zero error exactly when the divisor is 0,
aborts with Rust's division-overflow panic at `i64::MIN / -1`, and in every
other case returns the truncated quotient as a `Number`.  The spec examples
`(/ 10 0)` and `(+ 1 2 3)` fail accordingly. -/
theorem arith_primitives_spec :
    (∀ args : List MalValue, args.length ≠ 2 →
      add args = .error (arithArityMsg "add") ∧
      sub args = .error (arithArityMsg "subtract") ∧
      mult args = .error (arithArityMsg "multiply") ∧
      divide args = .error (arithArityMsg "divide")) ∧
    (∀ a b : MalValue, isNumV a = false ∨ isNumV b = false →
      add [a, b] = .error "Expected number arguments" ∧
      sub [a, b] = .error "Expected number arguments" ∧
      mult [a, b] = .error "Expected number arguments" ∧
      divide [a, b] = .error "Expected number arguments") ∧
    (∀ a b : Int,
      add [.Number a, .Number b] = .ok (.Number (wrap64 (a + b))) ∧
      sub [.Number a, .Number b] = .ok (.Number (wrap64 (a - b))) ∧
      mult [.Number a, .Number b] = .ok (.Number (wrap64 (a * b)))) ∧
    (∀ a b : Int, I64_MIN ≤ a + b → a + b ≤ I64_MAX →
      add [.Number a, .Number b] = .ok (.Number (a + b))) ∧
    (∀ a b : Int, b ≠ 0 → ¬(a = I64_MIN ∧ b = -1) →
      divide [.Number a, .Number b] = .ok (.Number (Int.tdiv a b))) ∧
    (∀ a b : Int, divide [.Number a, .Number b] = .error "Division by 0" ↔ b = 0) ∧
    (eval 10 (.Round [.Symbol "/", .Number 10, .Number 0]) create_repl_env 0).1 =
      .error "Division by 0" ∧
    (eval 10 (.Round [.Symbol "+", .Number 1, .Number 2, .Number 3]) create_repl_env 0).1 =
      .error (arithArityMsg "add") := by
  refine ⟨?_, ?_, ?_, ?_, ?_, ?_, by rfl, by rfl⟩
  · intro args h
    exact ⟨by simp [add, Except.map, vae_arity args _ h],
      by simp [sub, Except.map, vae_arity args _ h],
      by simp [mult, Except.map, vae_arity args _ h],
      by simp [divide, vae_arity args _ h]⟩
  · intro a b h
    exact ⟨by simp [add, Except.map, vae_typeerr a b _ h],
      by simp [sub, Except.map, vae_typeerr a b _ h],
      by simp [mult, Except.map, vae_typeerr a b _ h],
      by simp [divide, vae_typeerr a b _ h]⟩
  · intro a b
    exact ⟨by simp [add, Except.map, vae_num], by simp [sub, Except.map, vae_num],
      by simp [mult, Except.map, vae_num]⟩
  · intro a b h1 h2
    simp [add, Except.map, vae_num, wrap64_eq_self _ h1 h2]
  · intro a b h hover
    simp [divide, vae_num, h, hover]
  · intro a b
    constructor
    · intro h
      by_contra hb
      by_cases hover : a = I64_MIN ∧ b = -1
      · simp [divide, vae_num, hb, hover] at h
      · simp [divide, vae_num, hb, hover] at h
    · intro h
      subst h
      simp [divide, vae_num]

/-- Witness for C5 at concrete inputs. -/
theorem arith_primitives_spec_witness :
    add [.Number 1, .Number 2, .Number 3] = .error (arithArityMsg "add") ∧
    mult [.Nil, .Number 2] = .error "Expected number arguments" ∧
    add [.Number 2, .Number 3] = .ok (.Number (wrap64 (2 + 3))) ∧
    add [.Number 2, .Number 3] = .ok (.Number 5) ∧
    divide [.Number 10, .Number 3] = .ok (.Number 3) ∧
    (divide [.Number 10, .Number 0] = .error "Division by 0" ↔ (0 : Int) = 0) := by
  refine ⟨(arith_primitives_spec.1 _ (by decide)).1,
    (arith_primitives_spec.2.1 _ _ (Or.inl (by rfl))).2.2.1,
    (arith_primitives_spec.2.2.1 2 3).1,
    arith_primitives_spec.2.2.2.1 2 3 (by decide) (by decide),
    ?_, arith_primitives_spec.2.2.2.2.2.1 10 0⟩
  exact arith_primitives_spec.2.2.2.2.1 10 3 (by decide) (by decide)

/-- C8: evaluation is fail-fast but not atomic.  `def!` installs its binding
in the current scope as soon as its value expression succeeds; `do`
propagates the first failing argument's error together with the store as it
stood at the failure; concretely, evaluating `(do (def! x 5) y)` with `y`
unbound fails with the unbound-symbol error for `y` while `x` remains bound
to `Number(5)` in the root scope. -/
theorem do_failfast_keeps_defs :
    (∀ (fuel : Nat) (key : String) (vexpr : MalValue) (st st1 : Store) (env : Nat)
      (v : MalValue), eval fuel vexpr st env = (.ok v, st1) →
      def_bang (fuel+1) [.Symbol key, vexpr] st env = (.ok v, setVar st1 env key v)) ∧
    (∀ (fuel : Nat) (e : MalValue) (es : List MalValue) (st st1 : Store) (env : Nat)
      (prev : MalValue) (msg : String), eval fuel e st env = (.error msg, st1) →
      evalDo (fuel+1) (e :: es) prev st env = (.error msg, st1)) ∧
    (∀ (st : Store) (env : Nat) (k : String) (v : MalValue), env < st.length →
      envGet (setVar st env k v) env k = some v) ∧
    (eval 20 (.Round [.Symbol "do", .Round [.Symbol "def!", .Symbol "x", .Number 5],
      .Symbol "y"]) create_repl_env 0).1 = .error "Symbol 'y' not found in environment" ∧
    envGet (eval 20 (.Round [.Symbol "do", .Round [.Symbol "def!", .Symbol "x", .Number 5],
      .Symbol "y"]) create_repl_env 0).2 0 "x" = some (.Number 5) := by
  refine ⟨?_, ?_, ?_, by rfl, by rfl⟩
  · intro fuel key vexpr st st1 env v h
    simp only [def_bang]
    rw [h]
  · intro fuel e es st st1 env prev msg h
    simp only [evalDo]
    rw [h]
  · intro st env k v h
    exact envGet_setVar_self k v h

/-- Witness for C8 at concrete inputs. -/
theorem do_failfast_keeps_defs_witness :
    def_bang 3 [.Symbol "x", .Number 5] create_repl_env 0 =
      (.ok (.Number 5), setVar create_repl_env 0 "x" (.Number 5)) ∧
    evalDo 3 [.Symbol "nope"] .Nil create_repl_env 0 =
      (.error "Symbol 'nope' not found in environment", create_repl_env) ∧
    envGet (setVar create_repl_env 0 "x" (.Number 5)) 0 "x" = some (.Number 5) := by
  refine ⟨do_failfast_keeps_defs.1 2 "x" (.Number 5) create_repl_env create_repl_env 0
      (.Number 5) (by rfl),
    do_failfast_keeps_defs.2.1 2 (.Symbol "nope") [] create_repl_env create_repl_env 0
      .Nil _ (by rfl),
    do_failfast_keeps_defs.2.2.1 create_repl_env 0 "x" (.Number 5) (by decide)⟩

/-- C9, counterexample: two user-defined closures with syntactically equal
parameter lists, variadic names and bodies need not compare equal — the body
comparison uses the structural `PartialEq` of `MalValue`, which returns
`false` for `Comment` nodes (their arm is commented out in the source), so
two closures sharing the very same `Comment` body compare unequal. -/
theorem closure_eq_comment_body_counterexample :
    equals [.BuiltinFunction (.UserDefined [] none [.Comment "; c"] 0),
      .BuiltinFunction (.UserDefined [] none [.Comment "; c"] 0)] = .ok (.Bool false) := by
  rfl

/-- C9, amended: structural equality on two user-defined closures compares
only their parameter lists and bodies and ignores the captured environments:
for every two closures with equal parameter names (including the variadic
name) and equal bodies, provided the shared body is structurally self-equal
(it contains no `Mal`, `Comment` or `NonSpecialSeq` node), `=` returns
`Bool(true)` even when they were created in different scopes. -/
theorem closure_equality_ignores_env :
    ∀ (p1 p2 : List String) (r1 r2 : Option String) (b1 b2 : List MalValue) (e1 e2 : Nat),
      p1 = p2 → r1 = r2 → b1 = b2 → malEqList b1 b1 = true →
      malEq (.BuiltinFunction (.UserDefined p1 r1 b1 e1))
        (.BuiltinFunction (.UserDefined p2 r2 b2 e2)) = true ∧
      equals [.BuiltinFunction (.UserDefined p1 r1 b1 e1),
        .BuiltinFunction (.UserDefined p2 r2 b2 e2)] = .ok (.Bool true) := by
  intro p1 p2 r1 r2 b1 b2 e1 e2 hp hr hb hself
  subst hp
  subst hr
  subst hb
  have h1 : malEq (.BuiltinFunction (.UserDefined p1 r1 b1 e1))
      (.BuiltinFunction (.UserDefined p1 r1 b1 e2)) = true := by
    simp [malEq, funEq, hself]
  exact ⟨h1, by simp [equals, h1]⟩

/-- Witness for C9 at a concrete input: identical parameters, variadic name
and body, different captured scopes (handles 0 and 5). -/
theorem closure_equality_ignores_env_witness :
    malEq (.BuiltinFunction (.UserDefined ["a"] (some "r") [.Symbol "a"] 0))
      (.BuiltinFunction (.UserDefined ["a"] (some "r") [.Symbol "a"] 5)) = true ∧
    equals [.BuiltinFunction (.UserDefined ["a"] (some "r") [.Symbol "a"] 0),
      .BuiltinFunction (.UserDefined ["a"] (some "r") [.Symbol "a"] 5)] = .ok (.Bool true) :=
  closure_equality_ignores_env ["a"] ["a"] (some "r") (some "r")
    [.Symbol "a"] [.Symbol "a"] 0 5 rfl rfl rfl (by rfl)

/-- C1: closure application arity.  Without a variadic parameter, an argument
count below the fixed count fails with the at-least arity error and one above
it with the exact arity error; with a variadic parameter, fewer arguments
than the fixed count fail with the at-least arity error, and otherwise the
variadic name is bound in the fresh call scope to a round list of the
arguments beyond the fixed ones (empty when the counts are equal).  The
three spec examples with `(fn* (a & rest) rest)` behave accordingly. -/
theorem closure_application_arity (fuel : Nat) (params : List String) (body : List MalValue)
    (fenv : Nat) (args : List MalValue) (st : Store) :
    (∀ rp : Option String, args.length < params.length →
      applyUser (fuel+1) params rp body fenv args st =
        (.error ("Expected at least " ++ toString params.length ++ " arguments but got " ++
          toString args.length), st)) ∧
    (args.length > params.length →
      (applyUser (fuel+1) params none body fenv args st).1 =
        .error ("Expected " ++ toString params.length ++ " arguments but got " ++
          toString args.length)) ∧
    (∀ rname : String, params.length ≤ args.length →
      applyUser (fuel+1) params (some rname) body fenv args st =
        evalDo fuel body .Nil
          (setVar (bindFixed params args (st ++ [⟨[], some fenv⟩]) st.length) st.length rname
            (.Round (args.drop params.length))) st.length ∧
      lookupLocal
        (setVar (bindFixed params args (st ++ [⟨[], some fenv⟩]) st.length) st.length rname
          (.Round (args.drop params.length))) st.length rname =
        some (.Round (args.drop params.length))) ∧
    (eval 20 (.Round [.Round [.Symbol "fn*", .Round [.Symbol "a", .Symbol "&", .Symbol "rest"],
        .Symbol "rest"], .Number 1, .Number 2, .Number 3]) create_repl_env 0).1 =
      .ok (.Round [.Number 2, .Number 3]) ∧
    (eval 20 (.Round [.Round [.Symbol "fn*", .Round [.Symbol "a", .Symbol "&", .Symbol "rest"],
        .Symbol "rest"], .Number 1]) create_repl_env 0).1 = .ok (.Round []) ∧
    (eval 20 (.Round [.Round [.Symbol "fn*", .Round [.Symbol "a", .Symbol "&", .Symbol "rest"],
        .Symbol "rest"]]) create_repl_env 0).1 =
      .error "Expected at least 1 arguments but got 0" := by
  refine ⟨?_, ?_, ?_, by rfl, by rfl, by rfl⟩
  · intro rp h
    simp only [applyUser]
    rw [if_pos h]
  · intro h
    simp only [applyUser]
    rw [if_neg (by omega)]
    simp [h]
  · intro rname h
    refine ⟨?_, ?_⟩
    · simp only [applyUser]
      rw [if_neg (by omega)]
    · refine lookupLocal_setVar_self rname _ ?_
      rw [length_bindFixed]
      simp
/-- Witness for C1 at concrete inputs (fixed parameter list `["a"]`). -/
theorem closure_application_arity_witness :
    applyUser 1 ["a"] (some "r") [.Symbol "r"] 0 [] [] =
      (.error ("Expected at least " ++ toString (["a"].length) ++ " arguments but got " ++
        toString ([] : List MalValue).length), []) ∧
    (applyUser 1 ["a"] none [.Symbol "r"] 0 [.Nil, .Nil] []).1 =
      .error ("Expected " ++ toString (["a"].length) ++ " arguments but got " ++
        toString [MalValue.Nil, MalValue.Nil].length) ∧
    (applyUser 1 ["a"] (some "r") [.Symbol "r"] 0 [.Nil, .Number 7] [] =
      evalDo 0 [.Symbol "r"] .Nil
        (setVar (bindFixed ["a"] [.Nil, .Number 7] ([] ++ [⟨[], some 0⟩]) 0) 0 "r"
          (.Round ([MalValue.Nil, .Number 7].drop 1))) 0 ∧
     lookupLocal (setVar (bindFixed ["a"] [.Nil, .Number 7] ([] ++ [⟨[], some 0⟩]) 0) 0 "r"
        (.Round ([MalValue.Nil, .Number 7].drop 1))) 0 "r" =
      some (.Round ([MalValue.Nil, .Number 7].drop 1))) :=
  ⟨(closure_application_arity 0 ["a"] [.Symbol "r"] 0 [] []).1 (some "r") (by decide),
   (closure_application_arity 0 ["a"] [.Symbol "r"] 0 [.Nil, .Nil] []).2.1 (by decide),
   (closure_application_arity 0 ["a"] [.Symbol "r"] 0 [.Nil, .Number 7] []).2.2.1 "r"
     (by decide)⟩

/-- C2: lexical scoping of closure application.  When the head of a call
evaluates to a closure and the arguments evaluate to values, the call
reduces to `applyUser` with the closure's captured handle `fenv` — the
call-site scope `h` plays no further role — and the fresh scope in which the
parameters are bound and the body runs keeps `parent = fenv` through every
binding step, whatever the call-site scope was.  The final conjunct records
that `fn_star` captures the scope current at `fn*` evaluation time. -/
theorem closure_application_lexical_scope
    (fuel : Nat) (head : MalValue) (argEs : List MalValue)
    (params : List String) (rp : Option String) (body : List MalValue) (fenv : Nat)
    (args : List MalValue) (st st1 st2 : Store) (h : Nat)
    (hHead : eval fuel head st h =
      (.ok (.BuiltinFunction (.UserDefined params rp body fenv)), st1))
    (hArgs : evalArgs fuel argEs st1 h = (.ok args, st2)) :
    eval (fuel+1) (.Round (head :: argEs)) st h = applyUser fuel params rp body fenv args st2 ∧
    ((bindFixed params args (st2 ++ [⟨[], some fenv⟩]) st2.length).get? st2.length).map
      Scope.parent = some (some fenv) ∧
    (∀ (rname : String) (v : MalValue),
      ((setVar (bindFixed params args (st2 ++ [⟨[], some fenv⟩]) st2.length) st2.length
        rname v).get? st2.length).map Scope.parent = some (some fenv)) ∧
    (∀ (pl : List MalValue) (bodyE : MalValue) (envC : Nat) (fixed : List String)
      (restP : Option String), paramSplit pl = .ok (fixed, restP) →
      fn_star [.Round pl, bodyE] envC =
        .ok (.BuiltinFunction (.UserDefined fixed restP [bodyE] envC))) := by
  refine ⟨?_, ?_, ?_, ?_⟩
  · simp only [eval]
    rw [hHead]
    simp only
    rw [hArgs]
  · rw [bindFixed, parent_foldl_setVar, List.get?_concat_length]
    rfl
  · intro rname v
    rw [parent_setVar, bindFixed, parent_foldl_setVar, List.get?_concat_length]
    rfl
  · intro pl bodyE envC fixed restP hsplit
    simp [fn_star, hsplit]

/-- Witness for C2 at a concrete input: the head is a closure literal that
captured scope 0, applied at call-site scope 0 of the root store. -/
theorem closure_application_lexical_scope_witness :
    eval 4 (.Round [.BuiltinFunction (.UserDefined ["a"] none [.Symbol "a"] 0), .Number 7])
      create_repl_env 0 =
      applyUser 3 ["a"] none [.Symbol "a"] 0 [.Number 7] create_repl_env ∧
    ((bindFixed ["a"] [.Number 7] (create_repl_env ++ [⟨[], some 0⟩])
      create_repl_env.length).get? create_repl_env.length).map Scope.parent =
      some (some 0) := by
  have hm := closure_application_lexical_scope 3
    (.BuiltinFunction (.UserDefined ["a"] none [.Symbol "a"] 0)) [.Number 7]
    ["a"] none [.Symbol "a"] 0 [.Number 7]
    create_repl_env create_repl_env create_repl_env 0 (by rfl) (by rfl)
  exact ⟨hm.1, hm.2.1⟩

/-- C3: `let*` scoping.  With an even binding list, `let*` allocates exactly
one fresh scope, a child of the current scope (its parent handle is the
current handle), binds the pairs sequentially into that same scope — each
value expression being evaluated in the new scope, after the earlier
bindings were installed — and evaluates the body there.  The spec example
`(let* (a 1 b (+ a 1)) b)` yields `Number(2)`, and afterwards `a` is not
bound in the enclosing root scope. -/
theorem let_star_scoping :
    (∀ (fuel : Nat) (bl : List MalValue) (body : MalValue) (st : Store) (env : Nat),
      bl.length % 2 = 0 →
      let_star (fuel+1) [.Round bl, body] st env =
        (match letBind fuel bl (st ++ [⟨[], some env⟩]) st.length with
         | (.error e, st2) => (.error e, st2)
         | (.ok _, st2) => eval fuel body st2 st.length)) ∧
    (∀ (st : Store) (env : Nat),
      (st ++ [(⟨[], some env⟩ : Scope)]).get? st.length = some ⟨[], some env⟩) ∧
    (∀ (fuel : Nat) (s : String) (e : MalValue) (rest : List MalValue) (stc : Store)
      (hc : Nat),
      letBind (fuel+1) (.Symbol s :: e :: rest) stc hc =
        (match eval fuel e stc hc with
         | (.error msg, st1) => (.error msg, st1)
         | (.ok v, st1) => letBind fuel rest (setVar st1 hc s v) hc)) ∧
    (eval 20 (.Round [.Symbol "let*", .Round [.Symbol "a", .Number 1, .Symbol "b",
      .Round [.Symbol "+", .Symbol "a", .Number 1]], .Symbol "b"]) create_repl_env 0).1 =
      .ok (.Number 2) ∧
    envGet (eval 20 (.Round [.Symbol "let*", .Round [.Symbol "a", .Number 1, .Symbol "b",
      .Round [.Symbol "+", .Symbol "a", .Number 1]], .Symbol "b"]) create_repl_env 0).2
      0 "a" = none := by
  refine ⟨?_, ?_, ?_, by rfl, by rfl⟩
  · intro fuel bl body st env hev
    simp [let_star, hev]
  · intro st env
    exact List.get?_concat_length st _
  · intro fuel s e rest stc hc
    rfl

/-- Witness for C3 at a concrete input: an empty binding list over the root
store. -/
theorem let_star_scoping_witness :
    let_star 2 [.Round [], .Nil] create_repl_env 0 =
      (match letBind 1 [] (create_repl_env ++ [⟨[], some 0⟩]) create_repl_env.length with
       | (.error e, st2) => (.error e, st2)
       | (.ok _, st2) => eval 1 .Nil st2 create_repl_env.length) :=
  let_star_scoping.1 1 [] .Nil create_repl_env 0 (by decide)

/-- C10: the reader expands `'x` into the round list `(quote x)`
(`build_ast`, `src/reader.rs` lines 148-153), but `create_repl_env`
registers no binding named `quote`, so evaluating any quoted form in a fresh
root environment fails with the unbound-symbol error for `quote` — the head
symbol is resolved first and the failure aborts the call before any argument
is looked at. -/
theorem quote_reader_expansion_unbound :
    (∀ (fuel : Nat) (rest : List Char),
      readForm (fuel+1) (Char.ofNat 39 :: rest) =
        (readForm fuel (skipWs rest)).map fun p => (.Round [.Symbol "quote", p.1], p.2)) ∧
    envGet create_repl_env 0 "quote" = none ∧
    (∀ (fuel : Nat) (xs : List MalValue),
      eval (fuel+2) (.Round (.Symbol "quote" :: xs)) create_repl_env 0 =
        (.error "Symbol 'quote' not found in environment", create_repl_env)) := by
  refine ⟨?_, by rfl, ?_⟩
  · intro fuel rest
    rfl
  · intro fuel xs
    rfl

/-! Support lemmas for the no-`EOI` invariant. -/

/-- Splitting `noEOIList` over cons. -/
theorem noEOIList_cons (x : MalValue) (xs : List MalValue) :
    noEOIList (x :: xs) = (noEOI x && noEOIList xs) := rfl

/-- Members of a sentinel-free list are sentinel-free. -/
theorem noEOIList_mem {xs : List MalValue} (h : noEOIList xs = true) :
    ∀ x ∈ xs, noEOI x = true := by
  induction xs with
  | nil => intro x hx; cases hx
  | cons y ys ih =>
    rw [noEOIList_cons, Bool.and_eq_true] at h
    intro x hx
    rcases List.mem_cons.mp hx with hx | hx
    · rw [hx]; exact h.1
    · exact ih h.2 x hx

/-- A successful association-list lookup returns a stored value. -/
theorem lookup_mem {k : String} {t : List (String × MalValue)} {v : MalValue}
    (h : List.lookup k t = some v) : ∃ k', (k', v) ∈ t := by
  induction t with
  | nil => simp [List.lookup] at h
  | cons p rest ih =>
    rcases p with ⟨a, b⟩
    by_cases hk : (k == a) = true
    · simp only [List.lookup, hk] at h
      cases h
      exact ⟨a, List.mem_cons_self _ _⟩
    · rw [Bool.not_eq_true] at hk
      simp only [List.lookup, hk] at h
      obtain ⟨k', hk'⟩ := ih h
      exact ⟨k', List.mem_cons_of_mem _ hk'⟩

/-- Chain lookup in a sentinel-free store returns a sentinel-free value. -/
theorem bindingsGet_noEOI {st : Store} (hst : storeNoEOI st) :
    ∀ (fuel h : Nat) (k : String) (v : MalValue),
      bindingsGet fuel st h k = some v → noEOI v = true := by
  intro fuel
  induction fuel with
  | zero => intro h k v hv; simp [bindingsGet] at hv
  | succ fuel ih =>
    intro h k v hv
    simp only [bindingsGet] at hv
    cases hsc : st.get? h with
    | none =>
      simp only [hsc] at hv
      cases hv
    | some sc =>
      simp only [hsc] at hv
      have hscmem : sc ∈ st := List.get?_mem hsc
      cases hlk : sc.table.lookup k with
      | some w =>
        simp only [hlk] at hv
        obtain ⟨k', hk'⟩ := lookup_mem hlk
        have := hst sc hscmem (k', w) hk'
        cases hv
        exact this
      | none =>
        simp only [hlk] at hv
        cases hp : sc.parent with
        | some p =>
          simp only [hp] at hv
          exact ih p k v hv
        | none =>
          simp only [hp] at hv
          cases hv

/-- `envGet` from a sentinel-free store returns a sentinel-free value. -/
theorem envGet_noEOI {st : Store} {h : Nat} {k : String} {v : MalValue}
    (hst : storeNoEOI st) (hv : envGet st h k = some v) : noEOI v = true :=
  bindingsGet_noEOI hst _ h k v hv

/-- `setVar` with a sentinel-free value preserves store sentinel-freeness. -/
theorem storeNoEOI_setVar {st : Store} {v : MalValue} (hst : storeNoEOI st)
    (hv : noEOI v = true) (h : Nat) (k : String) : storeNoEOI (setVar st h k v) := by
  unfold setVar
  cases hsc : st.get? h with
  | none => exact hst
  | some sc =>
    intro sc' hsc' kv hkv
    rcases List.mem_or_eq_of_mem_set hsc' with hmem | heq
    · exact hst sc' hmem kv hkv
    · subst heq
      rcases List.mem_cons.mp hkv with hkv | hkv
      · rw [hkv]; exact hv
      · exact hst sc (List.get?_mem hsc) kv hkv

/-- Appending a fresh empty scope preserves store sentinel-freeness. -/
theorem storeNoEOI_append_empty {st : Store} (hst : storeNoEOI st) (p : Option Nat) :
    storeNoEOI (st ++ [⟨[], p⟩]) := by
  intro sc hsc kv hkv
  rcases List.mem_append.mp hsc with hmem | hmem
  · exact hst sc hmem kv hkv
  · rcases List.mem_singleton.mp hmem with rfl
    cases hkv

/-- Folding `setVar` over sentinel-free pairs preserves store
sentinel-freeness. -/
theorem storeNoEOI_foldl_setVar (h : Nat) :
    ∀ (l : List (String × MalValue)) (st : Store), storeNoEOI st →
      (∀ p ∈ l, noEOI p.2 = true) →
      storeNoEOI (l.foldl (fun st' p => setVar st' h p.1 p.2) st) := by
  intro l
  induction l with
  | nil => intro st hst _; exact hst
  | cons p rest ih =>
    intro st hst hall
    rw [List.foldl_cons]
    exact ih _ (storeNoEOI_setVar hst (hall p (List.mem_cons_self _ _)) h p.1)
      (fun q hq => hall q (List.mem_cons_of_mem _ hq))

/-- `bindFixed` with sentinel-free arguments preserves store
sentinel-freeness. -/
theorem storeNoEOI_bindFixed {params : List String} {vs : List MalValue} {h : Nat}
    (hvs : noEOIList vs = true) {st : Store} (hst : storeNoEOI st) :
    storeNoEOI (bindFixed params vs st h) :=
  storeNoEOI_foldl_setVar h (params.zip vs) st hst
    (fun p hp => noEOIList_mem hvs p.2 (List.of_mem_zip hp).2)

/-- A mapped arithmetic result can only be a number. -/
theorem map_num_ok {r : Except String (Int × Int)} {f : Int × Int → Int} {v : MalValue}
    (h : (r.map fun p => MalValue.Number (f p)) = .ok v) : ∃ n : Int, v = .Number n := by
  cases r with
  | error e => simp [Except.map] at h
  | ok p =>
    simp only [Except.map, Except.ok.injEq] at h
    exact ⟨f p, h.symm⟩

/-- Every builtin, fed sentinel-free arguments, can only return a
sentinel-free value. -/
theorem applyBuiltin_noEOI (b : BuiltinId) (args : List MalValue) (v : MalValue)
    (hargs : noEOIList args = true) (h : applyBuiltin b args = .ok v) : noEOI v = true := by
  cases b with
  | add =>
    obtain ⟨n, rfl⟩ := map_num_ok (by simpa [applyBuiltin, add] using h)
    rfl
  | sub =>
    obtain ⟨n, rfl⟩ := map_num_ok (by simpa [applyBuiltin, sub] using h)
    rfl
  | mult =>
    obtain ⟨n, rfl⟩ := map_num_ok (by simpa [applyBuiltin, mult] using h)
    rfl
  | divide =>
    simp only [applyBuiltin, divide] at h
    cases hv : validate_and_extract args "divide" with
    | error e => rw [hv] at h; cases h
    | ok p =>
      obtain ⟨a2, b2⟩ := p
      simp only [hv] at h
      by_cases hb : b2 = 0
      · simp [hb] at h
      · by_cases hover : a2 = I64_MIN ∧ b2 = -1
        · simp [hb, hover] at h
        · simp only [ne_eq, hb, not_false_eq_true, if_true, reduceIte, hover,
            Except.ok.injEq] at h
          rw [← h]
          rfl
  | listFn =>
    simp only [applyBuiltin, listFn, Except.ok.injEq] at h
    rw [← h]
    exact hargs
  | listQ =>
    simp only [applyBuiltin, list_question] at h
    split at h
    · cases h
    · split at h <;> (cases h; rfl)
  | emptyQ =>
    simp only [applyBuiltin, empty_question] at h
    split at h
    · cases h
    · split at h <;> (cases h; rfl)
  | countFn =>
    simp only [applyBuiltin, countFn] at h
    split at h
    · cases h
    · split at h <;> (cases h; rfl)
  | eqFn =>
    simp only [applyBuiltin, equals] at h
    split at h
    · cases h
    · split at h
      · cases h; rfl
      · cases h
  | prn =>
    simp only [applyBuiltin, prn_fn, Except.ok.injEq] at h
    rw [← h]
    rfl
  | prStrFn =>
    simp only [applyBuiltin, pr_str_fn, Except.ok.injEq] at h
    rw [← h]
    rfl
  | strFn =>
    simp only [applyBuiltin, str_fn, Except.ok.injEq] at h
    rw [← h]
    rfl
  | printlnFn =>
    simp only [applyBuiltin, println_fn, Except.ok.injEq] at h
    rw [← h]
    rfl
  | lt =>
    simp only [applyBuiltin, comparison_operator] at h
    split at h
    · cases h
    · split at h
      · simp only [reduceIte] at h
        cases h; rfl
      · cases h
  | le =>
    simp only [applyBuiltin, comparison_operator] at h
    split at h
    · cases h
    · split at h
      · simp only [reduceIte] at h
        cases h; rfl
      · cases h
  | gt =>
    simp only [applyBuiltin, comparison_operator] at h
    split at h
    · cases h
    · split at h
      · simp only [reduceIte] at h
        cases h; rfl
      · cases h
  | ge =>
    simp only [applyBuiltin, comparison_operator] at h
    split at h
    · cases h
    · split at h
      · simp only [reduceIte] at h
        cases h; rfl
      · cases h

/-- `fn_star`, fed sentinel-free (unevaluated) arguments, builds a
sentinel-free closure. -/
theorem fn_star_noEOI (args : List MalValue) (env : Nat) (v : MalValue)
    (hargs : noEOIList args = true) (h : fn_star args env = .ok v) : noEOI v = true := by
  cases args with
  | nil => simp [fn_star] at h
  | cons p0 rest =>
  cases rest with
  | nil => simp [fn_star] at h
  | cons body rest2 =>
  cases rest2 with
  | cons y ys => simp [fn_star] at h
  | nil =>
  have hbody : noEOI body = true := by
    simp only [noEOIList_cons, Bool.and_eq_true] at hargs
    exact hargs.2.1
  simp only [fn_star] at h
  rw [if_neg (by simp)] at h
  cases p0 with
  | Round pl =>
    cases hps : paramSplit pl with
    | error e => simp only [hps] at h; cases h
    | ok q =>
      obtain ⟨fixed, restP⟩ := q
      simp only [hps] at h
      cases h
      simp [noEOI, funNoEOI, noEOIList, hbody]
  | Square pl =>
    cases hps : paramSplit pl with
    | error e => simp only [hps] at h; cases h
    | ok q =>
      obtain ⟨fixed, restP⟩ := q
      simp only [hps] at h
      cases h
      simp [noEOI, funNoEOI, noEOIList, hbody]
  | String s => exact Except.noConfusion h
  | Symbol s => exact Except.noConfusion h
  | Number n => exact Except.noConfusion h
  | Bool b => exact Except.noConfusion h
  | Nil => exact Except.noConfusion h
  | Curly l => exact Except.noConfusion h
  | Mal l => exact Except.noConfusion h
  | Comment c => exact Except.noConfusion h
  | NonSpecialSeq c => exact Except.noConfusion h
  | Atom c => exact Except.noConfusion h
  | BuiltinFunction f => exact Except.noConfusion h
  | EOI => exact Except.noConfusion h

/-- Converse of `noEOIList_mem`. -/
theorem noEOIList_of_all {xs : List MalValue} (h : ∀ x ∈ xs, noEOI x = true) :
    noEOIList xs = true := by
  induction xs with
  | nil => rfl
  | cons y ys ih =>
    rw [noEOIList_cons, Bool.and_eq_true]
    exact ⟨h y (List.mem_cons_self _ _), ih fun x hx => h x (List.mem_cons_of_mem _ hx)⟩

/-- Dropping elements preserves list sentinel-freeness. -/
theorem noEOIList_drop {xs : List MalValue} (n : Nat) (h : noEOIList xs = true) :
    noEOIList (xs.drop n) = true :=
  noEOIList_of_all fun x hx => noEOIList_mem h x (List.mem_of_mem_drop hx)

/-- The no-`EOI` invariant holds at every fuel: evaluation never creates the
end-of-input sentinel. -/
theorem noEOI_invariant : ∀ fuel, NoEOIInv fuel := by
  intro fuel
  induction fuel with
  | zero =>
    refine ⟨?_, ?_, ?_, ?_, ?_, ?_, ?_, ?_, ?_, ?_⟩
    · intro ast st env _ hst
      exact ⟨hst, fun v hv => Except.noConfusion hv⟩
    · intro ast st env _ hst
      exact ⟨hst, fun v hv => Except.noConfusion hv⟩
    · intro es st env _ hst
      exact ⟨hst, fun vs hv => Except.noConfusion hv⟩
    · intro args st env _ hst
      exact ⟨hst, fun v hv => Except.noConfusion hv⟩
    · intro args st env _ hst
      exact ⟨hst, fun v hv => Except.noConfusion hv⟩
    · intro es acc st env _ _ hst
      exact ⟨hst, fun v hv => Except.noConfusion hv⟩
    · intro args st env _ hst
      exact ⟨hst, fun v hv => Except.noConfusion hv⟩
    · intro args st env _ hst
      exact ⟨hst, fun v hv => Except.noConfusion hv⟩
    · intro bl st env _ hst
      exact hst
    · intro params rp body fenv args st _ _ hst
      exact ⟨hst, fun v hv => Except.noConfusion hv⟩
  | succ fuel IH =>
    obtain ⟨IHeval, IHevalAst, IHargs, IHdef, IHdo, IHdoLoop, IHif, IHlet, IHletBind,
      IHapply⟩ := IH
    have evalAstStep : ∀ ast st env, noEOI ast = true → storeNoEOI st →
        storeNoEOI (eval_ast (fuel+1) ast st env).2 ∧
        (∀ v, (eval_ast (fuel+1) ast st env).1 = .ok v → noEOI v = true) := by
      intro ast st env hast hst
      cases ast with
      | Symbol s =>
        exact ⟨hst, fun v hv => by cases hv; exact hast⟩
      | Round l =>
        have H := IHargs l st env hast hst
        cases hres : evalArgs fuel l st env with
        | mk r st1 =>
          rw [hres] at H
          obtain ⟨Hst1, Hok1⟩ := H
          cases r with
          | error e =>
            have heq : eval_ast (fuel+1) (.Round l) st env = (.error e, st1) := by
              simp only [eval_ast, hres]
            rw [heq]
            exact ⟨Hst1, fun v hv => Except.noConfusion hv⟩
          | ok vs =>
            have heq : eval_ast (fuel+1) (.Round l) st env = (.ok (.Round vs), st1) := by
              simp only [eval_ast, hres]
            rw [heq]
            exact ⟨Hst1, fun v hv => by cases hv; exact Hok1 vs rfl⟩
      | Square l =>
        have H := IHargs l st env hast hst
        cases hres : evalArgs fuel l st env with
        | mk r st1 =>
          rw [hres] at H
          obtain ⟨Hst1, Hok1⟩ := H
          cases r with
          | error e =>
            have heq : eval_ast (fuel+1) (.Square l) st env = (.error e, st1) := by
              simp only [eval_ast, hres]
            rw [heq]
            exact ⟨Hst1, fun v hv => Except.noConfusion hv⟩
          | ok vs =>
            have heq : eval_ast (fuel+1) (.Square l) st env = (.ok (.Square vs), st1) := by
              simp only [eval_ast, hres]
            rw [heq]
            exact ⟨Hst1, fun v hv => by cases hv; exact Hok1 vs rfl⟩
      | Curly l =>
        have H := IHargs l st env hast hst
        cases hres : evalArgs fuel l st env with
        | mk r st1 =>
          rw [hres] at H
          obtain ⟨Hst1, Hok1⟩ := H
          cases r with
          | error e =>
            have heq : eval_ast (fuel+1) (.Curly l) st env = (.error e, st1) := by
              simp only [eval_ast, hres]
            rw [heq]
            exact ⟨Hst1, fun v hv => Except.noConfusion hv⟩
          | ok vs =>
            have heq : eval_ast (fuel+1) (.Curly l) st env = (.ok (.Curly vs), st1) := by
              simp only [eval_ast, hres]
            rw [heq]
            exact ⟨Hst1, fun v hv => by cases hv; exact Hok1 vs rfl⟩
      | Mal l =>
        have H := IHargs l st env hast hst
        cases hres : evalArgs fuel l st env with
        | mk r st1 =>
          rw [hres] at H
          obtain ⟨Hst1, Hok1⟩ := H
          cases r with
          | error e =>
            have heq : eval_ast (fuel+1) (.Mal l) st env = (.error e, st1) := by
              simp only [eval_ast, hres]
            rw [heq]
            exact ⟨Hst1, fun v hv => Except.noConfusion hv⟩
          | ok vs =>
            have heq : eval_ast (fuel+1) (.Mal l) st env = (.ok (.Mal vs), st1) := by
              simp only [eval_ast, hres]
            rw [heq]
            exact ⟨Hst1, fun v hv => by cases hv; exact Hok1 vs rfl⟩
      | String s => exact ⟨hst, fun v hv => by cases hv; exact hast⟩
      | Number n => exact ⟨hst, fun v hv => by cases hv; exact hast⟩
      | Bool b => exact ⟨hst, fun v hv => by cases hv; exact hast⟩
      | Nil => exact ⟨hst, fun v hv => by cases hv; exact hast⟩
      | Comment c => exact ⟨hst, fun v hv => by cases hv; exact hast⟩
      | NonSpecialSeq c => exact ⟨hst, fun v hv => by cases hv; exact hast⟩
      | Atom a => exact ⟨hst, fun v hv => by cases hv; exact hast⟩
      | BuiltinFunction f => exact ⟨hst, fun v hv => by cases hv; exact hast⟩
      | EOI => exact ⟨hst, fun v hv => by cases hv; exact hast⟩
    refine ⟨?_, evalAstStep, ?_, ?_, ?_, ?_, ?_, ?_, ?_, ?_⟩
    · -- eval
      intro ast st env hast hst
      cases ast with
      | Symbol s =>
        cases hg : envGet st env s with
        | some v =>
          have heq : eval (fuel+1) (.Symbol s) st env = (.ok v, st) := by
            simp only [eval, hg]
          rw [heq]
          exact ⟨hst, fun w hw => by cases hw; exact envGet_noEOI hst hg⟩
        | none =>
          have heq : eval (fuel+1) (.Symbol s) st env =
              (.error ("Symbol '" ++ s ++ "' not found in environment"), st) := by
            simp only [eval, hg]
          rw [heq]
          exact ⟨hst, fun w hw => Except.noConfusion hw⟩
      | Round lst =>
        cases lst with
        | nil =>
          exact ⟨hst, fun v hv => by cases hv; rfl⟩
        | cons head argsE =>
          have hhead : noEOI head = true := by
            have : noEOIList (head :: argsE) = true := hast
            rw [noEOIList_cons, Bool.and_eq_true] at this
            exact this.1
          have hargsE : noEOIList argsE = true := by
            have : noEOIList (head :: argsE) = true := hast
            rw [noEOIList_cons, Bool.and_eq_true] at this
            exact this.2
          have H := IHeval head st env hhead hst
          cases hres : eval fuel head st env with
          | mk r st1 =>
            rw [hres] at H
            obtain ⟨Hst1, Hok1⟩ := H
            cases r with
            | error e =>
              have heq : eval (fuel+1) (.Round (head :: argsE)) st env = (.error e, st1) := by
                simp only [eval, hres]
              rw [heq]
              exact ⟨Hst1, fun v hv => Except.noConfusion hv⟩
            | ok f =>
              have hf : noEOI f = true := Hok1 f rfl
              cases f with
              | BuiltinFunction fn =>
                cases fn with
                | SpecialForm sf =>
                  cases sf with
                  | defBang =>
                    have heq : eval (fuel+1) (.Round (head :: argsE)) st env =
                        def_bang fuel argsE st1 env := by
                      simp only [eval, hres]
                    rw [heq]
                    exact IHdef argsE st1 env hargsE Hst1
                  | letStar =>
                    have heq : eval (fuel+1) (.Round (head :: argsE)) st env =
                        let_star fuel argsE st1 env := by
                      simp only [eval, hres]
                    rw [heq]
                    exact IHlet argsE st1 env hargsE Hst1
                  | doForm =>
                    have heq : eval (fuel+1) (.Round (head :: argsE)) st env =
                        do_func fuel argsE st1 env := by
                      simp only [eval, hres]
                    rw [heq]
                    exact IHdo argsE st1 env hargsE Hst1
                  | fnStar =>
                    have heq : eval (fuel+1) (.Round (head :: argsE)) st env =
                        (fn_star argsE env, st1) := by
                      simp only [eval, hres]
                    rw [heq]
                    exact ⟨Hst1, fun v hv => fn_star_noEOI argsE env v hargsE hv⟩
                  | ifForm =>
                    have heq : eval (fuel+1) (.Round (head :: argsE)) st env =
                        if_special_form fuel argsE st1 env := by
                      simp only [eval, hres]
                    rw [heq]
                    exact IHif argsE st1 env hargsE Hst1
                | Builtin b =>
                  have HA := IHargs argsE st1 env hargsE Hst1
                  cases hares : evalArgs fuel argsE st1 env with
                  | mk ar st2 =>
                    rw [hares] at HA
                    obtain ⟨Hst2, Hok2⟩ := HA
                    cases ar with
                    | error e =>
                      have heq : eval (fuel+1) (.Round (head :: argsE)) st env =
                          (.error e, st2) := by
                        simp only [eval, hres, hares]
                      rw [heq]
                      exact ⟨Hst2, fun v hv => Except.noConfusion hv⟩
                    | ok vs =>
                      have heq : eval (fuel+1) (.Round (head :: argsE)) st env =
                          (applyBuiltin b vs, st2) := by
                        simp only [eval, hres, hares]
                      rw [heq]
                      exact ⟨Hst2, fun v hv =>
                        applyBuiltin_noEOI b vs v (Hok2 vs rfl) hv⟩
                | UserDefined params rp bdy fenv =>
                  have hbdy : noEOIList bdy = true := hf
                  have HA := IHargs argsE st1 env hargsE Hst1
                  cases hares : evalArgs fuel argsE st1 env with
                  | mk ar st2 =>
                    rw [hares] at HA
                    obtain ⟨Hst2, Hok2⟩ := HA
                    cases ar with
                    | error e =>
                      have heq : eval (fuel+1) (.Round (head :: argsE)) st env =
                          (.error e, st2) := by
                        simp only [eval, hres, hares]
                      rw [heq]
                      exact ⟨Hst2, fun v hv => Except.noConfusion hv⟩
                    | ok vs =>
                      have heq : eval (fuel+1) (.Round (head :: argsE)) st env =
                          applyUser fuel params rp bdy fenv vs st2 := by
                        simp only [eval, hres, hares]
                      rw [heq]
                      exact IHapply params rp bdy fenv vs st2 hbdy (Hok2 vs rfl) Hst2
              | String s =>
                have heq : eval (fuel+1) (.Round (head :: argsE)) st env =
                    (.error "First element is not a function", st1) := by
                  simp only [eval, hres]
                rw [heq]
                exact ⟨Hst1, fun v hv => Except.noConfusion hv⟩
              | Symbol s =>
                have heq : eval (fuel+1) (.Round (head :: argsE)) st env =
                    (.error "First element is not a function", st1) := by
                  simp only [eval, hres]
                rw [heq]
                exact ⟨Hst1, fun v hv => Except.noConfusion hv⟩
              | Number n =>
                have heq : eval (fuel+1) (.Round (head :: argsE)) st env =
                    (.error "First element is not a function", st1) := by
                  simp only [eval, hres]
                rw [heq]
                exact ⟨Hst1, fun v hv => Except.noConfusion hv⟩
              | Bool b =>
                have heq : eval (fuel+1) (.Round (head :: argsE)) st env =
                    (.error "First element is not a function", st1) := by
                  simp only [eval, hres]
                rw [heq]
                exact ⟨Hst1, fun v hv => Except.noConfusion hv⟩
              | Nil =>
                have heq : eval (fuel+1) (.Round (head :: argsE)) st env =
                    (.error "First element is not a function", st1) := by
                  simp only [eval, hres]
                rw [heq]
                exact ⟨Hst1, fun v hv => Except.noConfusion hv⟩
              | Round l =>
                have heq : eval (fuel+1) (.Round (head :: argsE)) st env =
                    (.error "First element is not a function", st1) := by
                  simp only [eval, hres]
                rw [heq]
                exact ⟨Hst1, fun v hv => Except.noConfusion hv⟩
              | Square l =>
                have heq : eval (fuel+1) (.Round (head :: argsE)) st env =
                    (.error "First element is not a function", st1) := by
                  simp only [eval, hres]
                rw [heq]
                exact ⟨Hst1, fun v hv => Except.noConfusion hv⟩
              | Curly l =>
                have heq : eval (fuel+1) (.Round (head :: argsE)) st env =
                    (.error "First element is not a function", st1) := by
                  simp only [eval, hres]
                rw [heq]
                exact ⟨Hst1, fun v hv => Except.noConfusion hv⟩
              | Mal l =>
                have heq : eval (fuel+1) (.Round (head :: argsE)) st env =
                    (.error "First element is not a function", st1) := by
                  simp only [eval, hres]
                rw [heq]
                exact ⟨Hst1, fun v hv => Except.noConfusion hv⟩
              | Comment c =>
                have heq : eval (fuel+1) (.Round (head :: argsE)) st env =
                    (.error "First element is not a function", st1) := by
                  simp only [eval, hres]
                rw [heq]
                exact ⟨Hst1, fun v hv => Except.noConfusion hv⟩
              | NonSpecialSeq c =>
                have heq : eval (fuel+1) (.Round (head :: argsE)) st env =
                    (.error "First element is not a function", st1) := by
                  simp only [eval, hres]
                rw [heq]
                exact ⟨Hst1, fun v hv => Except.noConfusion hv⟩
              | Atom a =>
                have heq : eval (fuel+1) (.Round (head :: argsE)) st env =
                    (.error "First element is not a function", st1) := by
                  simp only [eval, hres]
                rw [heq]
                exact ⟨Hst1, fun v hv => Except.noConfusion hv⟩
              | EOI =>
                have heq : eval (fuel+1) (.Round (head :: argsE)) st env =
                    (.error "First element is not a function", st1) := by
                  simp only [eval, hres]
                rw [heq]
                exact ⟨Hst1, fun v hv => Except.noConfusion hv⟩
      | String s => exact IHevalAst (.String s) st env hast hst
      | Number n => exact IHevalAst (.Number n) st env hast hst
      | Bool b => exact IHevalAst (.Bool b) st env hast hst
      | Nil => exact IHevalAst .Nil st env hast hst
      | Square l => exact IHevalAst (.Square l) st env hast hst
      | Curly l => exact IHevalAst (.Curly l) st env hast hst
      | Mal l => exact IHevalAst (.Mal l) st env hast hst
      | Comment c => exact IHevalAst (.Comment c) st env hast hst
      | NonSpecialSeq c => exact IHevalAst (.NonSpecialSeq c) st env hast hst
      | Atom a => exact IHevalAst (.Atom a) st env hast hst
      | BuiltinFunction f => exact IHevalAst (.BuiltinFunction f) st env hast hst
      | EOI => exact IHevalAst .EOI st env hast hst
    · -- evalArgs
      intro es st env hes hst
      cases es with
      | nil => exact ⟨hst, fun vs hv => by cases hv; rfl⟩
      | cons e rest =>
        rw [noEOIList_cons, Bool.and_eq_true] at hes
        have H := IHeval e st env hes.1 hst
        cases hres : eval fuel e st env with
        | mk r st1 =>
          rw [hres] at H
          obtain ⟨Hst1, Hok1⟩ := H
          cases r with
          | error msg =>
            have heq : evalArgs (fuel+1) (e :: rest) st env = (.error msg, st1) := by
              simp only [evalArgs, hres]
            rw [heq]
            exact ⟨Hst1, fun vs hv => Except.noConfusion hv⟩
          | ok v =>
            have HR := IHargs rest st1 env hes.2 Hst1
            cases hrest : evalArgs fuel rest st1 env with
            | mk rr st2 =>
              rw [hrest] at HR
              obtain ⟨Hst2, Hok2⟩ := HR
              cases rr with
              | error msg =>
                have heq : evalArgs (fuel+1) (e :: rest) st env = (.error msg, st2) := by
                  simp only [evalArgs, hres, hrest]
                rw [heq]
                exact ⟨Hst2, fun vs hv => Except.noConfusion hv⟩
              | ok vs =>
                have heq : evalArgs (fuel+1) (e :: rest) st env = (.ok (v :: vs), st2) := by
                  simp only [evalArgs, hres, hrest]
                rw [heq]
                refine ⟨Hst2, fun ws hw => ?_⟩
                cases hw
                rw [noEOIList_cons, Bool.and_eq_true]
                exact ⟨Hok1 v rfl, Hok2 vs rfl⟩
    · -- def_bang
      intro args st env hargs hst
      cases args with
      | nil => exact ⟨hst, fun v hv => Except.noConfusion hv⟩
      | cons k rest =>
        cases rest with
        | nil => exact ⟨hst, fun v hv => Except.noConfusion hv⟩
        | cons vexpr rest2 =>
          cases rest2 with
          | cons y ys => exact ⟨hst, fun v hv => Except.noConfusion hv⟩
          | nil =>
            rw [noEOIList_cons, Bool.and_eq_true] at hargs
            obtain ⟨hk, hargs2⟩ := hargs
            rw [noEOIList_cons, Bool.and_eq_true] at hargs2
            obtain ⟨hvexpr, -⟩ := hargs2
            cases k with
            | Symbol key =>
              have H := IHeval vexpr st env hvexpr hst
              cases hres : eval fuel vexpr st env with
              | mk r st1 =>
                rw [hres] at H
                obtain ⟨Hst1, Hok1⟩ := H
                cases r with
                | error e =>
                  have heq : def_bang (fuel+1) [.Symbol key, vexpr] st env =
                      (.error e, st1) := by
                    simp only [def_bang, hres]
                  rw [heq]
                  exact ⟨Hst1, fun v hv => Except.noConfusion hv⟩
                | ok value =>
                  have hval : noEOI value = true := Hok1 value rfl
                  have heq : def_bang (fuel+1) [.Symbol key, vexpr] st env =
                      (.ok value, setVar st1 env key value) := by
                    simp only [def_bang, hres]
                  rw [heq]
                  exact ⟨storeNoEOI_setVar Hst1 hval env key,
                    fun v hv => by cases hv; exact hval⟩
            | String a => exact ⟨hst, fun v hv => Except.noConfusion hv⟩
            | Number a => exact ⟨hst, fun v hv => Except.noConfusion hv⟩
            | Bool a => exact ⟨hst, fun v hv => Except.noConfusion hv⟩
            | Nil => exact ⟨hst, fun v hv => Except.noConfusion hv⟩
            | Round a => exact ⟨hst, fun v hv => Except.noConfusion hv⟩
            | Square a => exact ⟨hst, fun v hv => Except.noConfusion hv⟩
            | Curly a => exact ⟨hst, fun v hv => Except.noConfusion hv⟩
            | Mal a => exact ⟨hst, fun v hv => Except.noConfusion hv⟩
            | Comment a => exact ⟨hst, fun v hv => Except.noConfusion hv⟩
            | NonSpecialSeq a => exact ⟨hst, fun v hv => Except.noConfusion hv⟩
            | Atom a => exact ⟨hst, fun v hv => Except.noConfusion hv⟩
            | BuiltinFunction a => exact ⟨hst, fun v hv => Except.noConfusion hv⟩
            | EOI => exact ⟨hst, fun v hv => Except.noConfusion hv⟩
    · -- do_func
      intro args st env hargs hst
      exact IHdoLoop args .Nil st env hargs rfl hst
    · -- evalDo
      intro es acc st env hes hacc hst
      cases es with
      | nil => exact ⟨hst, fun v hv => by cases hv; exact hacc⟩
      | cons e rest =>
        rw [noEOIList_cons, Bool.and_eq_true] at hes
        have H := IHeval e st env hes.1 hst
        cases hres : eval fuel e st env with
        | mk r st1 =>
          rw [hres] at H
          obtain ⟨Hst1, Hok1⟩ := H
          cases r with
          | error msg =>
            have heq : evalDo (fuel+1) (e :: rest) acc st env = (.error msg, st1) := by
              simp only [evalDo, hres]
            rw [heq]
            exact ⟨Hst1, fun v hv => Except.noConfusion hv⟩
          | ok v =>
            have heq : evalDo (fuel+1) (e :: rest) acc st env =
                evalDo fuel rest v st1 env := by
              simp only [evalDo, hres]
            rw [heq]
            exact IHdoLoop rest v st1 env hes.2 (Hok1 v rfl) Hst1
    · -- if_special_form
      intro args st env hargs hst
      cases args with
      | nil => exact ⟨hst, fun v hv => Except.noConfusion hv⟩
      | cons cond rest0 =>
      cases rest0 with
      | nil => exact ⟨hst, fun v hv => Except.noConfusion hv⟩
      | cons thenE rest1 =>
      rw [noEOIList_cons, Bool.and_eq_true] at hargs
      obtain ⟨hcond, hargs1⟩ := hargs
      rw [noEOIList_cons, Bool.and_eq_true] at hargs1
      obtain ⟨hthen, hrest1⟩ := hargs1
      cases rest1 with
      | cons elseE rest2 =>
        cases rest2 with
        | cons y ys =>
          have heq : if_special_form (fuel+1) (cond :: thenE :: elseE :: y :: ys) st env =
              (.error "if requires two or three arguments", st) := by
            simp only [if_special_form]
            rw [if_pos (by simp)]
          rw [heq]
          exact ⟨hst, fun v hv => Except.noConfusion hv⟩
        | nil =>
          rw [noEOIList_cons, Bool.and_eq_true] at hrest1
          obtain ⟨helse, -⟩ := hrest1
          have H := IHeval cond st env hcond hst
          cases hres : eval fuel cond st env with
          | mk r st1 =>
            rw [hres] at H
            obtain ⟨Hst1, Hok1⟩ := H
            cases r with
            | error e =>
              have heq : if_special_form (fuel+1) [cond, thenE, elseE] st env =
                  (.error e, st1) := by
                simp [if_special_form, hres]
              rw [heq]
              exact ⟨Hst1, fun v hv => Except.noConfusion hv⟩
            | ok cv =>
              cases htr : (match cv with
                | MalValue.Nil => false | MalValue.Bool false => false | _ => true) with
              | true =>
                have heq : if_special_form (fuel+1) [cond, thenE, elseE] st env =
                    eval fuel thenE st1 env := by
                  simp [if_special_form, hres, htr]
                rw [heq]
                exact IHeval thenE st1 env hthen Hst1
              | false =>
                have heq : if_special_form (fuel+1) [cond, thenE, elseE] st env =
                    eval fuel elseE st1 env := by
                  simp [if_special_form, hres, htr]
                rw [heq]
                exact IHeval elseE st1 env helse Hst1
      | nil =>
        have H := IHeval cond st env hcond hst
        cases hres : eval fuel cond st env with
        | mk r st1 =>
          rw [hres] at H
          obtain ⟨Hst1, Hok1⟩ := H
          cases r with
          | error e =>
            have heq : if_special_form (fuel+1) [cond, thenE] st env = (.error e, st1) := by
              simp [if_special_form, hres]
            rw [heq]
            exact ⟨Hst1, fun v hv => Except.noConfusion hv⟩
          | ok cv =>
            cases htr : (match cv with
              | MalValue.Nil => false | MalValue.Bool false => false | _ => true) with
            | true =>
              have heq : if_special_form (fuel+1) [cond, thenE] st env =
                  eval fuel thenE st1 env := by
                simp [if_special_form, hres, htr]
              rw [heq]
              exact IHeval thenE st1 env hthen Hst1
            | false =>
              have heq : if_special_form (fuel+1) [cond, thenE] st env = (.ok .Nil, st1) := by
                simp [if_special_form, hres, htr]
              rw [heq]
              exact ⟨Hst1, fun v hv => by cases hv; rfl⟩
    · -- let_star
      intro args st env hargs hst
      cases args with
      | nil => exact ⟨hst, fun v hv => Except.noConfusion hv⟩
      | cons b0 rest0 =>
      cases rest0 with
      | nil => exact ⟨hst, fun v hv => Except.noConfusion hv⟩
      | cons body rest1 =>
      cases rest1 with
      | cons y ys => exact ⟨hst, fun v hv => Except.noConfusion hv⟩
      | nil =>
      rw [noEOIList_cons, Bool.and_eq_true] at hargs
      obtain ⟨hb0, hargs1⟩ := hargs
      rw [noEOIList_cons, Bool.and_eq_true] at hargs1
      obtain ⟨hbody, -⟩ := hargs1
      cases b0 with
      | Round bl =>
        have hbl : noEOIList bl = true := hb0
        by_cases hev : bl.length % 2 ≠ 0
        · have heq : let_star (fuel+1) [.Round bl, body] st env =
              (.error "Bindings must be pairs", st) := by
            simp [let_star, hev]
          rw [heq]
          exact ⟨hst, fun v hv => Except.noConfusion hv⟩
        · have HB := IHletBind bl (st ++ [⟨[], some env⟩]) st.length hbl
            (storeNoEOI_append_empty hst _)
          cases hlb : letBind fuel bl (st ++ [⟨[], some env⟩]) st.length with
          | mk lr st2 =>
            rw [hlb] at HB
            cases lr with
            | error e =>
              have heq : let_star (fuel+1) [.Round bl, body] st env = (.error e, st2) := by
                simp [let_star, hev, hlb]
              rw [heq]
              exact ⟨HB, fun v hv => Except.noConfusion hv⟩
            | ok u =>
              have heq : let_star (fuel+1) [.Round bl, body] st env =
                  eval fuel body st2 st.length := by
                simp [let_star, hev, hlb]
              rw [heq]
              exact IHeval body st2 st.length hbody HB
      | Square bl =>
        have hbl : noEOIList bl = true := hb0
        by_cases hev : bl.length % 2 ≠ 0
        · have heq : let_star (fuel+1) [.Square bl, body] st env =
              (.error "Bindings must be pairs", st) := by
            simp [let_star, hev]
          rw [heq]
          exact ⟨hst, fun v hv => Except.noConfusion hv⟩
        · have HB := IHletBind bl (st ++ [⟨[], some env⟩]) st.length hbl
            (storeNoEOI_append_empty hst _)
          cases hlb : letBind fuel bl (st ++ [⟨[], some env⟩]) st.length with
          | mk lr st2 =>
            rw [hlb] at HB
            cases lr with
            | error e =>
              have heq : let_star (fuel+1) [.Square bl, body] st env = (.error e, st2) := by
                simp [let_star, hev, hlb]
              rw [heq]
              exact ⟨HB, fun v hv => Except.noConfusion hv⟩
            | ok u =>
              have heq : let_star (fuel+1) [.Square bl, body] st env =
                  eval fuel body st2 st.length := by
                simp [let_star, hev, hlb]
              rw [heq]
              exact IHeval body st2 st.length hbody HB
      | String a => exact ⟨hst, fun v hv => Except.noConfusion hv⟩
      | Symbol a => exact ⟨hst, fun v hv => Except.noConfusion hv⟩
      | Number a => exact ⟨hst, fun v hv => Except.noConfusion hv⟩
      | Bool a => exact ⟨hst, fun v hv => Except.noConfusion hv⟩
      | Nil => exact ⟨hst, fun v hv => Except.noConfusion hv⟩
      | Curly a => exact ⟨hst, fun v hv => Except.noConfusion hv⟩
      | Mal a => exact ⟨hst, fun v hv => Except.noConfusion hv⟩
      | Comment a => exact ⟨hst, fun v hv => Except.noConfusion hv⟩
      | NonSpecialSeq a => exact ⟨hst, fun v hv => Except.noConfusion hv⟩
      | Atom a => exact ⟨hst, fun v hv => Except.noConfusion hv⟩
      | BuiltinFunction a => exact ⟨hst, fun v hv => Except.noConfusion hv⟩
      | EOI => exact ⟨hst, fun v hv => Except.noConfusion hv⟩
    · -- letBind
      intro bl st env hbl hst
      cases bl with
      | nil => exact hst
      | cons k rest0 =>
      cases rest0 with
      | nil => exact hst
      | cons vexpr rest =>
      rw [noEOIList_cons, Bool.and_eq_true] at hbl
      obtain ⟨hk, hbl1⟩ := hbl
      rw [noEOIList_cons, Bool.and_eq_true] at hbl1
      obtain ⟨hvexpr, hrest⟩ := hbl1
      cases k with
      | Symbol key =>
        have H := IHeval vexpr st env hvexpr hst
        cases hres : eval fuel vexpr st env with
        | mk r st1 =>
          rw [hres] at H
          obtain ⟨Hst1, Hok1⟩ := H
          cases r with
          | error e =>
            have heq : letBind (fuel+1) (.Symbol key :: vexpr :: rest) st env =
                (.error e, st1) := by
              simp only [letBind, hres]
            rw [heq]
            exact Hst1
          | ok v =>
            have heq : letBind (fuel+1) (.Symbol key :: vexpr :: rest) st env =
                letBind fuel rest (setVar st1 env key v) env := by
              simp only [letBind, hres]
            rw [heq]
            exact IHletBind rest (setVar st1 env key v) env hrest
              (storeNoEOI_setVar Hst1 (Hok1 v rfl) env key)
      | String a => exact hst
      | Number a => exact hst
      | Bool a => exact hst
      | Nil => exact hst
      | Round a => exact hst
      | Square a => exact hst
      | Curly a => exact hst
      | Mal a => exact hst
      | Comment a => exact hst
      | NonSpecialSeq a => exact hst
      | Atom a => exact hst
      | BuiltinFunction a => exact hst
      | EOI => exact hst
    · -- applyUser
      intro params rp body fenv args st hbody hargs hst
      by_cases hlt : args.length < params.length
      · have heq : applyUser (fuel+1) params rp body fenv args st =
            (.error ("Expected at least " ++ toString params.length ++
              " arguments but got " ++ toString args.length), st) := by
          simp only [applyUser]
          rw [if_pos hlt]
        rw [heq]
        exact ⟨hst, fun v hv => Except.noConfusion hv⟩
      · have hstB : storeNoEOI (bindFixed params args (st ++ [⟨[], some fenv⟩]) st.length) :=
          storeNoEOI_bindFixed hargs (storeNoEOI_append_empty hst _)
        cases rp with
        | some rname =>
          have hdrop : noEOI (.Round (args.drop params.length)) = true :=
            noEOIList_drop params.length hargs
          have heq : applyUser (fuel+1) params (some rname) body fenv args st =
              evalDo fuel body .Nil
                (setVar (bindFixed params args (st ++ [⟨[], some fenv⟩]) st.length)
                  st.length rname (.Round (args.drop params.length))) st.length := by
            simp only [applyUser]
            rw [if_neg hlt]
          rw [heq]
          exact IHdoLoop body .Nil _ st.length hbody rfl
            (storeNoEOI_setVar hstB hdrop st.length rname)
        | none =>
          by_cases hgt : args.length > params.length
          · have heq : applyUser (fuel+1) params none body fenv args st =
                (.error ("Expected " ++ toString params.length ++ " arguments but got " ++
                  toString args.length),
                 bindFixed params args (st ++ [⟨[], some fenv⟩]) st.length) := by
              simp only [applyUser]
              rw [if_neg hlt]
              simp [hgt]
            rw [heq]
            exact ⟨hstB, fun v hv => Except.noConfusion hv⟩
          · have heq : applyUser (fuel+1) params none body fenv args st =
                evalDo fuel body .Nil
                  (bindFixed params args (st ++ [⟨[], some fenv⟩]) st.length) st.length := by
              simp only [applyUser]
              rw [if_neg hlt]
              simp [hgt]
            rw [heq]
            exact IHdoLoop body .Nil _ st.length hbody rfl hstB

/-- C7, counterexample: the reader's output for the empty top-level input is
exactly the `EOI` sentinel, and evaluating that value succeeds and returns
the `EndOfInput` variant itself — `eval_ast`'s default arm clones it
unchanged — so `EndOfInput` does appear as an evaluation result. -/
theorem eoi_evaluation_result_counterexample :
    parse_input "" = some [.EOI] ∧
    eval 2 .EOI create_repl_env 0 = (.ok .EOI, create_repl_env) :=
  ⟨rfl, rfl⟩

/-- C7, amended: the `EndOfInput` sentinel is self-evaluating — evaluation
returns it unchanged, so it can be an evaluation result exactly when the
evaluated value contains it; evaluation never creates it: a sentinel-free
value evaluated in a sentinel-free store can only produce a sentinel-free
result. -/
theorem eoi_self_evaluating_never_created :
    (∀ (fuel : Nat) (st : Store) (env : Nat), eval (fuel+2) .EOI st env = (.ok .EOI, st)) ∧
    (∀ (fuel : Nat) (ast : MalValue) (st : Store) (env : Nat) (v : MalValue) (st' : Store),
      noEOI ast = true → storeNoEOI st → eval fuel ast st env = (.ok v, st') →
      noEOI v = true) := by
  constructor
  · intro fuel st env
    rfl
  · intro fuel ast st env v st' hast hst hres
    have H := (noEOI_invariant fuel).1 ast st env hast hst
    rw [hres] at H
    exact H.2 v rfl

/-- Witness for C7 at concrete inputs: the sentinel self-evaluates in the
empty store, and a sentinel-free number evaluates to a sentinel-free
result. -/
theorem eoi_self_evaluating_never_created_witness :
    eval 2 .EOI [] 0 = (.ok .EOI, []) ∧ noEOI (.Number 3) = true :=
  ⟨eoi_self_evaluating_never_created.1 0 [] 0,
   eoi_self_evaluating_never_created.2 2 (.Number 3) [] 0 (.Number 3) [] (by rfl)
     (by intro sc hsc; cases hsc) (by rfl)⟩

/-! Decimal printing/parsing round trip. -/

/-- Code point of a digit character built from a digit. -/
theorem digitChar_toNat (d : Nat) (hd : d < 10) : (Char.ofNat (48 + d)).toNat = 48 + d := by
  interval_cases d <;> decide

/-- The digit accumulator only prepends. -/
theorem natCharsAux_append : ∀ (fuel n : Nat) (acc : List Char),
    natCharsAux fuel n acc = natCharsAux fuel n [] ++ acc := by
  intro fuel
  induction fuel with
  | zero => intro n acc; rfl
  | succ fuel ih =>
    intro n acc
    by_cases hn : n = 0
    · simp [natCharsAux, hn]
    · rw [natCharsAux, natCharsAux, if_neg hn, if_neg hn,
        ih (n / 10) (Char.ofNat (48 + n % 10) :: acc),
        ih (n / 10) [Char.ofNat (48 + n % 10)]]
      simp

/-- Parsing an extra final digit. -/
theorem parseNatL_concat (t : List Char) (c : Char) :
    parseNatL (t ++ [c]) = parseNatL t * 10 + (c.toNat - 48) := by
  simp [parseNatL, List.foldl_append]

/-- The digit accumulator inverts parsing. -/
theorem natCharsAux_val : ∀ (fuel n : Nat), n < fuel →
    parseNatL (natCharsAux fuel n []) = n := by
  intro fuel
  induction fuel with
  | zero => intro n hn; omega
  | succ fuel ih =>
    intro n hn
    by_cases hn0 : n = 0
    · simp [natCharsAux, hn0, parseNatL]
    · rw [natCharsAux, if_neg hn0, natCharsAux_append, parseNatL_concat,
        digitChar_toNat _ (Nat.mod_lt _ (by omega))]
      have hdiv : n / 10 < n := Nat.div_lt_self (Nat.pos_of_ne_zero hn0) (by omega)
      rw [ih (n / 10) (by omega)]
      omega

/-- `natChars` inverts `parseNatL`. -/
theorem natChars_val (n : Nat) : parseNatL (natChars n) = n := by
  by_cases hn : n = 0
  · simp [natChars, hn, parseNatL]
  · rw [natChars, if_neg hn]
    exact natCharsAux_val (n + 1) n (by omega)

/-- Every character the digit accumulator emits is a digit. -/
theorem natCharsAux_digits : ∀ (fuel n : Nat) (acc : List Char),
    (∀ c ∈ acc, isDigitCode c.toNat = true) →
    ∀ c ∈ natCharsAux fuel n acc, isDigitCode c.toNat = true := by
  intro fuel
  induction fuel with
  | zero => intro n acc hacc; exact hacc
  | succ fuel ih =>
    intro n acc hacc c hc
    by_cases hn : n = 0
    · rw [natCharsAux, if_pos hn] at hc
      exact hacc c hc
    · rw [natCharsAux, if_neg hn] at hc
      refine ih (n / 10) _ ?_ c hc
      intro d hd
      rcases List.mem_cons.mp hd with hd | hd
      · rw [hd, digitChar_toNat _ (Nat.mod_lt _ (by omega))]
        simp [isDigitCode]
        omega
      · exact hacc d hd

/-- Every character of `natChars n` is a digit. -/
theorem natChars_digits (n : Nat) : ∀ c ∈ natChars n, isDigitCode c.toNat = true := by
  by_cases hn : n = 0
  · intro c hc
    rw [natChars, if_pos hn] at hc
    rcases List.mem_singleton.mp hc with rfl
    decide
  · rw [natChars, if_neg hn]
    exact natCharsAux_digits (n + 1) n [] (by intro c hc; cases hc)

/-- `natChars` never produces the empty list. -/
theorem natChars_ne_nil (n : Nat) : natChars n ≠ [] := by
  by_cases hn : n = 0
  · simp [natChars, hn]
  · rw [natChars, if_neg hn, natCharsAux, if_neg hn, natCharsAux_append]
    simp

/-! Character classes and token reading. -/

/-- A symbol character is none of the structural code points and is not
whitespace. -/
theorem symbolChar_facts {c : Char} (hc : symbolChar c = true) :
    isWs c = false ∧ c.toNat ≠ 40 ∧ c.toNat ≠ 41 ∧ c.toNat ≠ 91 ∧ c.toNat ≠ 93 ∧
    c.toNat ≠ 123 ∧ c.toNat ≠ 125 ∧ c.toNat ≠ 34 ∧ c.toNat ≠ 39 := by
  simp only [symbolChar, Bool.not_eq_true', Bool.or_eq_false_iff] at hc
  obtain ⟨hw, hs⟩ := hc
  simp only [specialCode, Bool.or_eq_false_iff, decide_eq_false_iff_not] at hs
  refine ⟨hw, ?_, ?_, ?_, ?_, ?_, ?_, ?_, ?_⟩ <;> omega

/-- A character classified by code point as digit or minus is a symbol
character. -/
theorem code_symbolChar {c : Char} (h : isDigitCode c.toNat = true ∨ c.toNat = 45) :
    symbolChar c = true := by
  simp only [isDigitCode, Bool.and_eq_true, decide_eq_true_eq] at h
  simp only [symbolChar, isWs, specialCode, Bool.or_eq_true, Bool.not_eq_true',
    Bool.or_eq_false_iff, decide_eq_false_iff_not]
  omega

/-- Whitespace is never a symbol character. -/
theorem ws_not_symbolChar {c : Char} (h : isWs c = true) : symbolChar c = false := by
  simp [symbolChar, h]

/-- A closing delimiter is never a symbol character. -/
theorem close_not_symbolChar {c : Char}
    (h : c.toNat = 41 ∨ c.toNat = 93 ∨ c.toNat = 125) : symbolChar c = false := by
  simp only [symbolChar, isWs, specialCode, Bool.not_eq_true, Bool.not_eq_false',
    Bool.or_eq_true, decide_eq_true_eq]
  rcases h with h | h | h <;> rw [h] <;> simp

/-- Splitting `takeWhile`/`dropWhile` over an explicit token/delimiter
boundary. -/
theorem takeWhile_append_all {p : Char → Bool} : ∀ (l r : List Char),
    (∀ c ∈ l, p c = true) → (∀ c, r.head? = some c → p c = false) →
    (l ++ r).takeWhile p = l ∧ (l ++ r).dropWhile p = r := by
  intro l
  induction l with
  | nil =>
    intro r _ hr
    cases r with
    | nil => exact ⟨rfl, rfl⟩
    | cons c r' =>
      have := hr c rfl
      simp [List.takeWhile, List.dropWhile, this]
  | cons a l' ih =>
    intro r hl hr
    have ha : p a = true := hl a (List.mem_cons_self _ _)
    have := ih r (fun c hc => hl c (List.mem_cons_of_mem _ hc)) hr
    simp [List.takeWhile, List.dropWhile, ha, this.1, this.2]

/-- `delimB` restated as a head condition on `symbolChar`. -/
theorem delimB_head {rest : List Char} (h : delimB rest = true) :
    ∀ c, rest.head? = some c → symbolChar c = false := by
  intro c hc
  cases rest with
  | nil => cases hc
  | cons d rest' =>
    cases hc
    simpa [delimB] using h

/-- Reading a token: a maximal run of symbol characters followed by a
delimiter is consumed whole and classified. -/
theorem readForm_token (c : Char) (t rest : List Char) (hc : symbolChar c = true)
    (ht : ∀ d ∈ t, symbolChar d = true) (hrest : delimB rest = true) (n : Nat) :
    readForm (n+1) ((c :: t) ++ rest) = some (tokClassify (c :: t), rest) := by
  obtain ⟨hw, h40, h41, h91, h93, h123, h125, h34, h39⟩ := symbolChar_facts hc
  have hsplit := takeWhile_append_all t rest ht (delimB_head hrest)
  rw [List.cons_append, readForm, if_neg h40, if_neg h91, if_neg h123, if_neg h34,
    if_neg h39, if_pos hc, hsplit.1, hsplit.2]

/-! String escaping round trip. -/

/-- One step of `scanString` on a cons cell. -/
theorem scanString_cons (c : Char) (tail : List Char) :
    scanString (c :: tail) =
      if c.toNat = 34 then some ([], tail)
      else if c.toNat = 92 then
        match tail with
        | [] => none
        | d :: rest' => (scanString rest').map fun p => (c :: d :: p.1, p.2)
      else (scanString tail).map fun p => (c :: p.1, p.2) := by
  rw [scanString.eq_def]

/-- One step of `unescapeList` on a cons cell. -/
theorem unescapeList_cons (c : Char) (tail : List Char) :
    unescapeList (c :: tail) =
      if c.toNat = 92 then
        match tail with
        | [] => [c]
        | d :: rest' =>
          if d = 'n' then '\n' :: unescapeList rest'
          else if d = 'r' then '\r' :: unescapeList rest'
          else if d = 't' then '\t' :: unescapeList rest'
          else if d.toNat = 92 then d :: unescapeList rest'
          else if d.toNat = 34 then d :: unescapeList rest'
          else c :: d :: unescapeList rest'
      else c :: unescapeList tail := by
  rw [unescapeList.eq_def]

/-- Scanning the escaped content of a string literal stops exactly at the
closing quote. -/
theorem scanString_escape : ∀ (l rest : List Char),
    scanString (escapeList l ++ Char.ofNat 34 :: rest) = some (escapeList l, rest) := by
  intro l
  induction l with
  | nil =>
    intro rest
    simp only [escapeList, List.nil_append]
    rw [scanString_cons, if_pos (by decide)]
  | cons c l' ih =>
    intro rest
    by_cases h92 : c.toNat = 92
    · rw [escapeList, escapeChar, if_pos h92, List.cons_append, List.cons_append,
        scanString_cons, if_neg (by omega), if_pos h92]
      simp [ih rest]
    · by_cases h34 : c.toNat = 34
      · rw [escapeList, escapeChar, if_neg h92, if_pos h34, List.cons_append,
          List.cons_append, scanString_cons, if_neg (by decide), if_pos (by decide)]
        simp [ih rest]
      · by_cases hn : c = '\n'
        · rw [escapeList, escapeChar, if_neg h92, if_neg h34, if_pos hn, List.cons_append,
            List.cons_append, scanString_cons, if_neg (by decide), if_pos (by decide)]
          simp [ih rest]
        · by_cases hr : c = '\r'
          · rw [escapeList, escapeChar, if_neg h92, if_neg h34, if_neg hn, if_pos hr,
              List.cons_append, List.cons_append, scanString_cons, if_neg (by decide),
              if_pos (by decide)]
            simp [ih rest]
          · by_cases htb : c = '\t'
            · rw [escapeList, escapeChar, if_neg h92, if_neg h34, if_neg hn, if_neg hr,
                if_pos htb, List.cons_append, List.cons_append, scanString_cons,
                if_neg (by decide), if_pos (by decide)]
              simp [ih rest]
            · rw [escapeList, escapeChar, if_neg h92, if_neg h34, if_neg hn, if_neg hr,
                if_neg htb, List.cons_append, List.nil_append, List.cons_append,
                scanString_cons, if_neg h34, if_neg h92]
              simp [ih rest]

/-- Unescaping inverts escaping. -/
theorem unescape_escape : ∀ l : List Char, unescapeList (escapeList l) = l := by
  intro l
  induction l with
  | nil => rfl
  | cons c l' ih =>
    by_cases h92 : c.toNat = 92
    · have hne_n : ¬c = 'n' := by intro h; rw [h] at h92; exact absurd h92 (by decide)
      have hne_r : ¬c = 'r' := by intro h; rw [h] at h92; exact absurd h92 (by decide)
      have hne_t : ¬c = 't' := by intro h; rw [h] at h92; exact absurd h92 (by decide)
      rw [escapeList, escapeChar, if_pos h92, List.cons_append, List.cons_append,
        List.nil_append, unescapeList_cons, if_pos h92]
      dsimp only
      rw [if_neg hne_n, if_neg hne_r, if_neg hne_t, if_pos h92, ih]
    · by_cases h34 : c.toNat = 34
      · have hne_n : ¬c = 'n' := by intro h; rw [h] at h34; exact absurd h34 (by decide)
        have hne_r : ¬c = 'r' := by intro h; rw [h] at h34; exact absurd h34 (by decide)
        have hne_t : ¬c = 't' := by intro h; rw [h] at h34; exact absurd h34 (by decide)
        rw [escapeList, escapeChar, if_neg h92, if_pos h34, List.cons_append,
          List.cons_append, List.nil_append, unescapeList_cons, if_pos (by decide)]
        dsimp only
        rw [if_neg hne_n, if_neg hne_r, if_neg hne_t, if_neg h92, if_pos h34, ih]
      · by_cases hn : c = '\n'
        · rw [escapeList, escapeChar, if_neg h92, if_neg h34, if_pos hn, List.cons_append,
            List.cons_append, List.nil_append, unescapeList_cons, if_pos (by decide)]
          dsimp only
          rw [if_pos (by decide), ih, hn]
        · by_cases hr : c = '\r'
          · rw [escapeList, escapeChar, if_neg h92, if_neg h34, if_neg hn, if_pos hr,
              List.cons_append, List.cons_append, List.nil_append, unescapeList_cons,
              if_pos (by decide)]
            dsimp only
            rw [if_neg (by decide), if_pos (by decide), ih, hr]
          · by_cases htb : c = '\t'
            · rw [escapeList, escapeChar, if_neg h92, if_neg h34, if_neg hn, if_neg hr,
                if_pos htb, List.cons_append, List.cons_append, List.nil_append,
                unescapeList_cons, if_pos (by decide)]
              dsimp only
              rw [if_neg (by decide), if_neg (by decide), if_pos (by decide), ih, htb]
            · rw [escapeList, escapeChar, if_neg h92, if_neg h34, if_neg hn, if_neg hr,
                if_neg htb, List.cons_append, List.nil_append, unescapeList_cons,
                if_neg h92, ih]

/-! Token classification of printed atoms. -/

/-- A token of digits and minus signs is not one of the word literals. -/
theorem all_digitOrMinus_ne {t : List Char}
    (h : ∀ c ∈ t, isDigitCode c.toNat = true ∨ c.toNat = 45) :
    t ≠ "nil".data ∧ t ≠ "true".data ∧ t ≠ "false".data := by
  refine ⟨?_, ?_, ?_⟩ <;> intro heq <;> subst heq
  · rcases h 'n' (by decide) with h1 | h1 <;> revert h1 <;> decide
  · rcases h 't' (by decide) with h1 | h1 <;> revert h1 <;> decide
  · rcases h 'f' (by decide) with h1 | h1 <;> revert h1 <;> decide

/-- Printed numbers consist of digits and minus signs. -/
theorem intChars_digitOrMinus (k : Int) :
    ∀ c ∈ intChars k, isDigitCode c.toNat = true ∨ c.toNat = 45 := by
  intro c hc
  rw [intChars] at hc
  split at hc
  · rcases List.mem_cons.mp hc with rfl | hc
    · right; decide
    · exact Or.inl (natChars_digits _ c hc)
  · exact Or.inl (natChars_digits _ c hc)

/-- A printed number is never the empty token. -/
theorem intChars_ne_nil (k : Int) : intChars k ≠ [] := by
  rw [intChars]
  split
  · simp
  · exact natChars_ne_nil _

/-- A printed number token is classified as a number literal. -/
theorem intChars_numTok (k : Int) : isNumTok (intChars k) = true := by
  by_cases hk : k < 0
  · rw [intChars, if_pos hk, isNumTok, if_pos (by decide)]
    rw [Bool.and_eq_true]
    constructor
    · simp [natChars_ne_nil k.natAbs]
    · rw [List.all_eq_true]
      intro d hd
      simpa using natChars_digits _ d hd
  · rw [intChars, if_neg hk]
    cases hnc : natChars k.natAbs with
    | nil => exact absurd hnc (natChars_ne_nil _)
    | cons c cs =>
      have hc : isDigitCode c.toNat = true := natChars_digits _ c (by rw [hnc]; simp)
      have hc45 : ¬c.toNat = 45 := by
        simp only [isDigitCode, Bool.and_eq_true, decide_eq_true_eq] at hc
        omega
      rw [isNumTok, if_neg hc45, ← hnc, List.all_eq_true]
      intro d hd
      simpa using natChars_digits _ d hd

/-- Parsing a printed number recovers its value. -/
theorem intChars_val (k : Int) : numVal (intChars k) = k := by
  by_cases hk : k < 0
  · rw [intChars, if_pos hk, numVal, if_pos (by decide)]
    simp only [List.tail_cons, natChars_val]
    omega
  · cases hnc : natChars k.natAbs with
    | nil => exact absurd hnc (natChars_ne_nil _)
    | cons c cs =>
      have hc : isDigitCode c.toNat = true := natChars_digits _ c (by rw [hnc]; simp)
      have hc45 : ¬c.toNat = 45 := by
        simp only [isDigitCode, Bool.and_eq_true, decide_eq_true_eq] at hc
        omega
      rw [intChars, if_neg hk, hnc, numVal, if_neg hc45, ← hnc, natChars_val]
      omega

/-- Printed numbers classify back to the same `Number`. -/
theorem tokClassify_num (k : Int) : tokClassify (intChars k) = .Number k := by
  obtain ⟨h1, h2, h3⟩ := all_digitOrMinus_ne (intChars_digitOrMinus k)
  rw [tokClassify, if_neg h1, if_neg h2, if_neg h3, if_pos (intChars_numTok k),
    intChars_val]

/-- Rebuilding a string from its own characters is the identity. -/
theorem string_mk_data (s : String) : String.mk s.data = s := by
  cases s
  rfl

/-- A literal symbol's text classifies back to the same `Symbol`. -/
theorem tokClassify_sym (s : String) (h1 : s.data ≠ "nil".data)
    (h2 : s.data ≠ "true".data) (h3 : s.data ≠ "false".data)
    (h4 : isNumTok s.data = false) : tokClassify s.data = .Symbol s := by
  rw [tokClassify, if_neg h1, if_neg h2, if_neg h3, if_neg (by simp [h4]), string_mk_data]

/-! Leading characters of printed literals, and whitespace skipping. -/

/-- Skipping whitespace ignores an all-whitespace prefix. -/
theorem skipWs_append_ws : ∀ {w : List Char}, w.all isWs = true →
    ∀ z : List Char, skipWs (w ++ z) = skipWs z := by
  intro w
  induction w with
  | nil => intro _ z; rfl
  | cons c w' ih =>
    intro hw z
    rw [List.all_cons, Bool.and_eq_true] at hw
    rw [List.cons_append, skipWs, if_pos hw.1]
    exact ih hw.2 z

/-- Skipping whitespace stops at a non-whitespace head. -/
theorem skipWs_cons_not {c : Char} (hc : isWs c = false) (z : List Char) :
    skipWs (c :: z) = c :: z := by
  rw [skipWs, if_neg (by simp [hc])]

/-- A closing delimiter is not whitespace. -/
theorem close_not_ws {cc : Char}
    (h : cc.toNat = 41 ∨ cc.toNat = 93 ∨ cc.toNat = 125) : isWs cc = false := by
  simp only [isWs, Bool.or_eq_false_iff, decide_eq_false_iff_not]
  omega

/-- The printed form of a literal starts with a non-whitespace character
that is not a closing delimiter. -/
theorem print_head {v : MalValue} (hv : Literal v) :
    ∃ c cs, prChars v true = c :: cs ∧ isWs c = false ∧
      c.toNat ≠ 41 ∧ c.toNat ≠ 93 ∧ c.toNat ≠ 125 := by
  cases hv with
  | nil => exact ⟨'n', ['i', 'l'], rfl, by decide, by decide, by decide, by decide⟩
  | bool b =>
    cases b with
    | true => exact ⟨'t', ['r', 'u', 'e'], rfl, by decide, by decide, by decide, by decide⟩
    | false =>
      exact ⟨'f', ['a', 'l', 's', 'e'], rfl, by decide, by decide, by decide, by decide⟩
  | num k =>
    by_cases hk : k < 0
    · refine ⟨Char.ofNat 45, natChars k.natAbs, ?_, by decide, by decide, by decide,
        by decide⟩
      show intChars k = _
      rw [intChars, if_pos hk]
    · cases hnc : natChars k.natAbs with
      | nil => exact absurd hnc (natChars_ne_nil _)
      | cons c cs =>
        have hc : isDigitCode c.toNat = true := natChars_digits _ c (by rw [hnc]; simp)
        simp only [isDigitCode, Bool.and_eq_true, decide_eq_true_eq] at hc
        refine ⟨c, cs, ?_, ?_, by omega, by omega, by omega⟩
        · show intChars k = _
          rw [intChars, if_neg hk, hnc]
        · simp only [isWs, Bool.or_eq_false_iff, decide_eq_false_iff_not]
          omega
  | str s => exact ⟨Char.ofNat 34, _, rfl, by decide, by decide, by decide, by decide⟩
  | sym s hne hall h1 h2 h3 h4 =>
    cases hd : s.data with
    | nil => exact absurd hd hne
    | cons c cs =>
      have hc : symbolChar c = true := by
        rw [hd, List.all_cons, Bool.and_eq_true] at hall
        exact hall.1
      obtain ⟨hw, -, h41, -, h93, -, h125, -⟩ := symbolChar_facts hc
      exact ⟨c, cs, hd, hw, h41, h93, h125⟩
  | round hxs => exact ⟨Char.ofNat 40, _, rfl, by decide, by decide, by decide, by decide⟩
  | square hxs => exact ⟨Char.ofNat 91, _, rfl, by decide, by decide, by decide, by decide⟩
  | curly hxs => exact ⟨Char.ofNat 123, _, rfl, by decide, by decide, by decide, by decide⟩

/-- Values have positive size. -/
theorem mal_sizeOf_pos (v : MalValue) : 0 < sizeOf v := by
  cases v <;> simp_arith

/-- Value lists have positive size. -/
theorem malList_sizeOf_pos (xs : List MalValue) : 0 < sizeOf xs := by
  cases xs <;> simp_arith

/-- Reading any nonempty all-symbol token against a delimiter. -/
theorem readForm_print_token (t : List Char) (ht : t ≠ [])
    (hall : ∀ d ∈ t, symbolChar d = true) (n : Nat) (rest : List Char)
    (hrest : delimB rest = true) :
    readForm (n + 1) (t ++ rest) = some (tokClassify t, rest) := by
  cases t with
  | nil => exact absurd rfl ht
  | cons c cs =>
    exact readForm_token c cs rest (hall c (by simp))
      (fun d hd => hall d (by simp [hd])) hrest n

/-- The main reading/printing round trip, by strong induction on size: a
literal's readable printed form, followed by any delimiter-started rest,
reads back as exactly that literal; a literal list joined by spaces and
terminated by a closing delimiter reads back as that list; and structural
equality is reflexive on literals. -/
theorem roundtrip_main : ∀ N : Nat,
    (∀ v : MalValue, sizeOf v ≤ N → Literal v → ∀ (n : Nat) (rest : List Char),
      delimB rest = true →
      readForm (rfBound v + n) (prChars v true ++ rest) = some (v, rest)) ∧
    (∀ xs : List MalValue, sizeOf xs ≤ N → LiteralList xs →
      ∀ (n : Nat) (cc : Char) (w rest : List Char),
        (cc.toNat = 41 ∨ cc.toNat = 93 ∨ cc.toNat = 125) → w.all isWs = true →
        readSeq (seqBound xs + n) cc.toNat
          (w ++ (joinSpace (prCharsList xs true) ++ cc :: rest)) = some (xs, rest)) ∧
    (∀ v : MalValue, sizeOf v ≤ N → Literal v → malEq v v = true) ∧
    (∀ xs : List MalValue, sizeOf xs ≤ N → LiteralList xs → malEqList xs xs = true) := by
  intro N
  induction N with
  | zero =>
    refine ⟨?_, ?_, ?_, ?_⟩
    · intro v hsz
      exact absurd hsz (by have := mal_sizeOf_pos v; omega)
    · intro xs hsz
      exact absurd hsz (by have := malList_sizeOf_pos xs; omega)
    · intro v hsz
      exact absurd hsz (by have := mal_sizeOf_pos v; omega)
    · intro xs hsz
      exact absurd hsz (by have := malList_sizeOf_pos xs; omega)
  | succ N ihN =>
    obtain ⟨IHform, IHseq, IHeq, IHeqList⟩ := ihN
    refine ⟨?_, ?_, ?_, ?_⟩
    · -- readForm on a printed literal
      intro v hsz hv n rest hrest
      cases hv with
      | nil =>
        rw [show rfBound MalValue.Nil + n = n + 1 by show 1 + n = n + 1; omega]
        exact readForm_print_token "nil".data (by decide) (by decide) n rest hrest
      | bool b =>
        cases b with
        | true =>
          rw [show rfBound (MalValue.Bool true) + n = n + 1 by show 1 + n = n + 1; omega]
          exact readForm_print_token "true".data (by decide) (by decide) n rest hrest
        | false =>
          rw [show rfBound (MalValue.Bool false) + n = n + 1 by show 1 + n = n + 1; omega]
          exact readForm_print_token "false".data (by decide) (by decide) n rest hrest
      | num k =>
        rw [show rfBound (MalValue.Number k) + n = n + 1 by show 1 + n = n + 1; omega]
        have := readForm_print_token (intChars k) (intChars_ne_nil k)
          (fun d hd => code_symbolChar (intChars_digitOrMinus k d hd)) n rest hrest
        rw [show prChars (MalValue.Number k) true = intChars k from rfl, this,
          tokClassify_num]
      | str s =>
        rw [show rfBound (MalValue.String s) + n = n + 1 by show 1 + n = n + 1; omega]
        have hshape : prChars (MalValue.String s) true ++ rest =
            Char.ofNat 34 :: (escapeList s.data ++ Char.ofNat 34 :: rest) := by
          show (Char.ofNat 34 :: escapeList s.data ++ [Char.ofNat 34]) ++ rest = _
          simp
        rw [hshape, readForm, if_neg (by decide), if_neg (by decide), if_neg (by decide),
          if_pos (by decide), scanString_escape]
        simp [unescape_escape, string_mk_data]
      | sym s hne hall h1 h2 h3 h4 =>
        rw [show rfBound (MalValue.Symbol s) + n = n + 1 by show 1 + n = n + 1; omega]
        have := readForm_print_token s.data hne
          (fun d hd => by
            rw [List.all_eq_true] at hall
            simpa using hall d hd) n rest hrest
        rw [show prChars (MalValue.Symbol s) true = s.data from rfl, this,
          tokClassify_sym s h1 h2 h3 h4]
      | round hxs =>
        rename_i xs
        have hszxs : sizeOf xs ≤ N := by
          have : sizeOf (MalValue.Round xs) = 1 + sizeOf xs := by simp
          omega
        rw [show rfBound (MalValue.Round xs) + n = (seqBound xs + n) + 1 by
          show 1 + seqBound xs + n = seqBound xs + n + 1; omega]
        have hshape : prChars (MalValue.Round xs) true ++ rest =
            Char.ofNat 40 :: (joinSpace (prCharsList xs true) ++ Char.ofNat 41 :: rest) := by
          show (Char.ofNat 40 :: joinSpace (prCharsList xs true) ++ [Char.ofNat 41]) ++
            rest = _
          simp
        rw [hshape, readForm, if_pos (by decide)]
        have hseq : readSeq (seqBound xs + n) 41
            (joinSpace (prCharsList xs true) ++ Char.ofNat 41 :: rest) = some (xs, rest) :=
          IHseq xs hszxs hxs n (Char.ofNat 41) [] rest (Or.inl (by decide)) (by decide)
        rw [hseq]
        rfl
      | square hxs =>
        rename_i xs
        have hszxs : sizeOf xs ≤ N := by
          have : sizeOf (MalValue.Square xs) = 1 + sizeOf xs := by simp
          omega
        rw [show rfBound (MalValue.Square xs) + n = (seqBound xs + n) + 1 by
          show 1 + seqBound xs + n = seqBound xs + n + 1; omega]
        have hshape : prChars (MalValue.Square xs) true ++ rest =
            Char.ofNat 91 :: (joinSpace (prCharsList xs true) ++ Char.ofNat 93 :: rest) := by
          show (Char.ofNat 91 :: joinSpace (prCharsList xs true) ++ [Char.ofNat 93]) ++
            rest = _
          simp
        rw [hshape, readForm, if_neg (by decide), if_pos (by decide)]
        have hseq : readSeq (seqBound xs + n) 93
            (joinSpace (prCharsList xs true) ++ Char.ofNat 93 :: rest) = some (xs, rest) :=
          IHseq xs hszxs hxs n (Char.ofNat 93) [] rest (Or.inr (Or.inl (by decide)))
            (by decide)
        rw [hseq]
        rfl
      | curly hxs =>
        rename_i xs
        have hszxs : sizeOf xs ≤ N := by
          have : sizeOf (MalValue.Curly xs) = 1 + sizeOf xs := by simp
          omega
        rw [show rfBound (MalValue.Curly xs) + n = (seqBound xs + n) + 1 by
          show 1 + seqBound xs + n = seqBound xs + n + 1; omega]
        have hshape : prChars (MalValue.Curly xs) true ++ rest =
            Char.ofNat 123 ::
              (joinSpace (prCharsList xs true) ++ Char.ofNat 125 :: rest) := by
          show (Char.ofNat 123 :: joinSpace (prCharsList xs true) ++ [Char.ofNat 125]) ++
            rest = _
          simp
        rw [hshape, readForm, if_neg (by decide), if_neg (by decide), if_pos (by decide)]
        have hseq : readSeq (seqBound xs + n) 125
            (joinSpace (prCharsList xs true) ++ Char.ofNat 125 :: rest) =
            some (xs, rest) :=
          IHseq xs hszxs hxs n (Char.ofNat 125) [] rest (Or.inr (Or.inr (by decide)))
            (by decide)
        rw [hseq]
        rfl
    · -- readSeq on printed elements
      intro xs hsz hxs n cc w rest hclose hw
      cases hxs with
      | nil =>
        rw [show seqBound ([] : List MalValue) + n = n + 1 by show 1 + n = n + 1; omega,
          readSeq, skipWs_append_ws hw,
          show joinSpace (prCharsList ([] : List MalValue) true) ++ cc :: rest =
            cc :: rest from rfl,
          skipWs_cons_not (close_not_ws hclose)]
        simp
      | cons hx hxs' =>
        rename_i x xs'
        have hszx : sizeOf x ≤ N := by
          have : sizeOf (x :: xs') = 1 + sizeOf x + sizeOf xs' := by simp
          have := malList_sizeOf_pos xs'
          omega
        have hszxs' : sizeOf xs' ≤ N := by
          have : sizeOf (x :: xs') = 1 + sizeOf x + sizeOf xs' := by simp
          have := mal_sizeOf_pos x
          omega
        obtain ⟨c, cs, hpx, hcw, hc41, hc93, hc125⟩ := print_head hx
        have hccne : ¬c.toNat = cc.toNat := by
          rcases hclose with h | h | h <;> omega
        cases xs' with
        | nil =>
          rw [show seqBound [x] + n = (rfBound x + (n + 1)) + 1 by
            show 1 + rfBound x + 1 + n = rfBound x + (n + 1) + 1; omega]
          have hshape : w ++ (joinSpace (prCharsList [x] true) ++ cc :: rest) =
              w ++ (prChars x true ++ cc :: rest) := rfl
          rw [hshape, readSeq, skipWs_append_ws hw, hpx, List.cons_append,
            skipWs_cons_not hcw]
          dsimp only
          rw [if_neg hccne, ← List.cons_append, ← hpx]
          have hform := IHform x hszx hx (n + 1) (cc :: rest)
            (by simp [delimB, close_not_symbolChar hclose])
          rw [hform]
          dsimp only
          have hseqnil : readSeq (rfBound x + (n + 1)) cc.toNat (cc :: rest) =
              some ([], rest) := by
            rw [show rfBound x + (n + 1) = (rfBound x + n) + 1 by omega, readSeq,
              skipWs_cons_not (close_not_ws hclose)]
            simp
          rw [hseqnil]
          rfl
        | cons y ys =>
          rw [show seqBound (x :: y :: ys) + n =
              (rfBound x + (seqBound (y :: ys) + n)) + 1 by
            show 1 + rfBound x + seqBound (y :: ys) + n = _ + 1; omega]
          have hshape : w ++ (joinSpace (prCharsList (x :: y :: ys) true) ++ cc :: rest) =
              w ++ (prChars x true ++
                (Char.ofNat 32 :: (joinSpace (prCharsList (y :: ys) true) ++
                  cc :: rest))) := by
            show w ++ ((prChars x true ++
              (Char.ofNat 32 :: joinSpace (prCharsList (y :: ys) true))) ++ cc :: rest) = _
            simp
          rw [hshape, readSeq, skipWs_append_ws hw, hpx, List.cons_append,
            skipWs_cons_not hcw]
          dsimp only
          rw [if_neg hccne, ← List.cons_append, ← hpx]
          have hform := IHform x hszx hx (seqBound (y :: ys) + n)
            (Char.ofNat 32 :: (joinSpace (prCharsList (y :: ys) true) ++ cc :: rest))
            (by simp [delimB, ws_not_symbolChar, isWs])
          rw [hform]
          dsimp only
          have hseqrest : readSeq (rfBound x + (seqBound (y :: ys) + n)) cc.toNat
              (Char.ofNat 32 :: (joinSpace (prCharsList (y :: ys) true) ++ cc :: rest)) =
              some (y :: ys, rest) := by
            have h0 := IHseq (y :: ys) hszxs' hxs' (rfBound x + n) cc [Char.ofNat 32]
              rest hclose (by decide)
            rw [show seqBound (y :: ys) + (rfBound x + n) =
              rfBound x + (seqBound (y :: ys) + n) by omega] at h0
            exact h0
          rw [hseqrest]
          rfl
    · -- structural equality is reflexive on literals
      intro v hsz hv
      cases hv with
      | nil => rfl
      | bool b => simp [malEq]
      | num k => simp [malEq]
      | str s => simp [malEq]
      | sym s hne hall h1 h2 h3 h4 => simp [malEq]
      | round hxs =>
        rename_i xs
        have hszxs : sizeOf xs ≤ N := by
          have : sizeOf (MalValue.Round xs) = 1 + sizeOf xs := by simp
          omega
        show malEqList xs xs = true
        exact IHeqList xs hszxs hxs
      | square hxs =>
        rename_i xs
        have hszxs : sizeOf xs ≤ N := by
          have : sizeOf (MalValue.Square xs) = 1 + sizeOf xs := by simp
          omega
        show malEqList xs xs = true
        exact IHeqList xs hszxs hxs
      | curly hxs =>
        rename_i xs
        have hszxs : sizeOf xs ≤ N := by
          have : sizeOf (MalValue.Curly xs) = 1 + sizeOf xs := by simp
          omega
        show malEqList xs xs = true
        exact IHeqList xs hszxs hxs
    · -- list equality is reflexive on literal lists
      intro xs hsz hxs
      cases hxs with
      | nil => rfl
      | cons hx hxs' =>
        rename_i x xs'
        have hszx : sizeOf x ≤ N := by
          have : sizeOf (x :: xs') = 1 + sizeOf x + sizeOf xs' := by simp
          have := malList_sizeOf_pos xs'
          omega
        have hszxs' : sizeOf xs' ≤ N := by
          have : sizeOf (x :: xs') = 1 + sizeOf x + sizeOf xs' := by simp
          have := mal_sizeOf_pos x
          omega
        show (malEq x x && malEqList xs' xs') = true
        rw [Bool.and_eq_true]
        exact ⟨IHeq x hszx hx, IHeqList xs' hszxs' hxs'⟩

/-- `rfBound` is at least one. -/
theorem rfBound_pos (v : MalValue) : 1 ≤ rfBound v := by
  cases v <;> first
    | exact le_refl 1
    | (show 1 ≤ 1 + seqBound _; omega)

/-- The reading fuel needed for a printed value is dominated by a linear
function of the printed length. -/
theorem bound_le : ∀ N : Nat,
    (∀ v : MalValue, sizeOf v ≤ N → rfBound v ≤ 3 * (prChars v true).length + 2) ∧
    (∀ xs : List MalValue, sizeOf xs ≤ N →
      seqBound xs ≤ 3 * (joinSpace (prCharsList xs true)).length + 4) := by
  intro N
  induction N with
  | zero =>
    constructor
    · intro v hsz
      exact absurd hsz (by have := mal_sizeOf_pos v; omega)
    · intro xs hsz
      exact absurd hsz (by have := malList_sizeOf_pos xs; omega)
  | succ N ih =>
    obtain ⟨ihv, ihl⟩ := ih
    constructor
    · intro v hsz
      cases v with
      | Round xs =>
        have hszxs : sizeOf xs ≤ N := by
          have : sizeOf (MalValue.Round xs) = 1 + sizeOf xs := by simp
          omega
        have := ihl xs hszxs
        show 1 + seqBound xs ≤
          3 * ((Char.ofNat 40 :: joinSpace (prCharsList xs true) ++
            [Char.ofNat 41]).length) + 2
        simp only [List.length_cons, List.length_append, List.length_singleton]
        omega
      | Square xs =>
        have hszxs : sizeOf xs ≤ N := by
          have : sizeOf (MalValue.Square xs) = 1 + sizeOf xs := by simp
          omega
        have := ihl xs hszxs
        show 1 + seqBound xs ≤
          3 * ((Char.ofNat 91 :: joinSpace (prCharsList xs true) ++
            [Char.ofNat 93]).length) + 2
        simp only [List.length_cons, List.length_append, List.length_singleton]
        omega
      | Curly xs =>
        have hszxs : sizeOf xs ≤ N := by
          have : sizeOf (MalValue.Curly xs) = 1 + sizeOf xs := by simp
          omega
        have := ihl xs hszxs
        show 1 + seqBound xs ≤
          3 * ((Char.ofNat 123 :: joinSpace (prCharsList xs true) ++
            [Char.ofNat 125]).length) + 2
        simp only [List.length_cons, List.length_append, List.length_singleton]
        omega
      | String s => show 1 ≤ _; omega
      | Symbol s => show 1 ≤ _; omega
      | Number k => show 1 ≤ _; omega
      | Bool b => show 1 ≤ _; omega
      | Nil => show 1 ≤ _; omega
      | Mal l => show 1 ≤ _; omega
      | Comment c => show 1 ≤ _; omega
      | NonSpecialSeq c => show 1 ≤ _; omega
      | Atom a => show 1 ≤ _; omega
      | BuiltinFunction f => show 1 ≤ _; omega
      | EOI => show 1 ≤ _; omega
    · intro xs hsz
      cases xs with
      | nil => show 1 ≤ _; omega
      | cons x xs' =>
        have hszx : sizeOf x ≤ N := by
          have : sizeOf (x :: xs') = 1 + sizeOf x + sizeOf xs' := by simp
          have := malList_sizeOf_pos xs'
          omega
        have hszxs' : sizeOf xs' ≤ N := by
          have : sizeOf (x :: xs') = 1 + sizeOf x + sizeOf xs' := by simp
          have := mal_sizeOf_pos x
          omega
        have hxb := ihv x hszx
        cases xs' with
        | nil =>
          show 1 + rfBound x + 1 ≤ 3 * (joinSpace [prChars x true]).length + 4
          rw [show joinSpace [prChars x true] = prChars x true from rfl]
          omega
        | cons y ys =>
          have hyb := ihl (y :: ys) hszxs'
          show 1 + rfBound x + seqBound (y :: ys) ≤
            3 * ((prChars x true ++
              Char.ofNat 32 :: joinSpace (prCharsList (y :: ys) true)).length) + 4
          simp only [List.length_append, List.length_cons]
          omega

/-- The readable printed form of a literal parses back as exactly that
literal followed by the end-of-input sentinel. -/
theorem parse_print (v : MalValue) (hv : Literal v) :
    parse_input (pr_str v true) = some [v, .EOI] := by
  have hlen : rfBound v ≤ 3 * (prChars v true).length + 2 :=
    (bound_le (sizeOf v)).1 v le_rfl
  have hpos := rfBound_pos v
  obtain ⟨m, hm⟩ : ∃ m, 3 * (prChars v true).length + 9 = rfBound v + m :=
    ⟨3 * (prChars v true).length + 9 - rfBound v, by omega⟩
  have hrf := (roundtrip_main (sizeOf v)).1 v le_rfl hv m [] (by rfl)
  rw [List.append_nil] at hrf
  have h : readForms (3 * (prChars v true).length + 10) (prChars v true) = some [v] := by
    rw [show 3 * (prChars v true).length + 10 = (rfBound v + m) + 1 by omega, readForms]
    obtain ⟨c, cs, hpx, hcw, -, -, -⟩ := print_head hv
    rw [hpx, skipWs_cons_not hcw]
    dsimp only
    rw [← hpx, hrf]
    dsimp only
    rw [show rfBound v + m = (rfBound v + m - 1) + 1 by omega, readForms]
    rfl
  show (readForms (3 * (prChars v true).length + 10) (prChars v true)).map
    (fun fs => fs ++ [MalValue.EOI]) = _
  rw [h]
  rfl

/-- C6: round trip.  For every literal-representable value `v` (nil,
booleans, numbers, strings, plain-token symbols, and round/square/curly
lists of these), parsing the readable-mode printed form of `v` yields `v`
back (followed by the reader's end-of-input sentinel), and `v` is
structurally equal to the parsed value (structural equality is reflexive on
literals). -/
theorem literal_print_parse_roundtrip :
    ∀ v : MalValue, Literal v →
      parse_input (pr_str v true) = some [v, .EOI] ∧ malEq v v = true :=
  fun v hv => ⟨parse_print v hv, (roundtrip_main (sizeOf v)).2.2.1 v le_rfl hv⟩

/-- Witness for C6 at a concrete nested literal. -/
theorem literal_print_parse_roundtrip_witness :
    parse_input (pr_str (.Round [.Number (-3), .String "a\nb", .Symbol "foo",
      .Square [.Nil, .Bool false]]) true) =
      some [.Round [.Number (-3), .String "a\nb", .Symbol "foo",
        .Square [.Nil, .Bool false]], .EOI] ∧
    malEq (.Round [.Number (-3), .String "a\nb", .Symbol "foo",
        .Square [.Nil, .Bool false]])
      (.Round [.Number (-3), .String "a\nb", .Symbol "foo",
        .Square [.Nil, .Bool false]]) = true :=
  literal_print_parse_roundtrip _
    (Literal.round (LiteralList.cons (Literal.num (-3))
      (LiteralList.cons (Literal.str "a\nb")
        (LiteralList.cons (Literal.sym "foo" (by decide) (by decide) (by decide)
          (by decide) (by decide) (by decide))
          (LiteralList.cons
            (Literal.square (LiteralList.cons Literal.nil
              (LiteralList.cons (Literal.bool false) LiteralList.nil)))
            LiteralList.nil)))))
